import Mathlib

set_option maxRecDepth 40000

/-!
Verification of the manage-backend metric-aggregation engine and
health/alert state machine against its natural-language specification.

The Python sources under `backend/metrics` and `backend/monitoring` are
shallowly embedded below: Django rows become structures, querysets become
lists, timestamps become seconds since the Unix epoch (as `Nat`), and the
fallible dynamic attribute lookup of the check engine becomes `Except`.
Definitions follow the Python source line by line; the few members that the
source tree only calls (they live in `metrics/models.py`, which is not part
of the tree) are reconstructed from the specification and are marked
`Modelled from the spec:` in their doc comments.
-/

namespace ManageBackend

/-! ## Calendar arithmetic

`Metric.Granularity.round_down` is absent from the source tree, but
`test_metrics_round_down` pins its behaviour: HOURLY and DAILY floor the
timestamp to the hour/day, and MONTHLY floors to the start of the calendar
month (`2024-08-22 16:45:15` ↦ `2024-08-01 00:00:00`).  We therefore need
month boundaries of the proleptic Gregorian calendar, expressed in seconds
since the epoch. -/

/-- Gregorian leap-year test. -/
def isLeap (y : Nat) : Bool :=
  (y % 4 == 0 && y % 100 != 0) || y % 400 == 0

/-- Length in days of the `m`-th calendar month counted from January 1970. -/
def monthLen (m : Nat) : Nat :=
  let y := 1970 + m / 12
  match m % 12 with
  | 0 => 31
  | 1 => if isLeap y then 29 else 28
  | 2 => 31
  | 3 => 30
  | 4 => 31
  | 5 => 30
  | 6 => 31
  | 7 => 31
  | 8 => 30
  | 9 => 31
  | 10 => 30
  | _ => 31

/-- Days from the epoch to the start of the `m`-th month after January 1970. -/
def monthDays : Nat → Nat
  | 0 => 0
  | m + 1 => monthDays m + monthLen m

/-- Seconds from the epoch to the start of the `m`-th month after January 1970. -/
def monthBoundary (m : Nat) : Nat := 86400 * monthDays m

/-- Index of the calendar month containing epoch-second `t`: the greatest `m`
whose boundary is `≤ t`.  The search bound works because every month has at
least 28 days = 2419200 seconds. -/
def monthIndex (t : Nat) : Nat :=
  Nat.findGreatest (fun k => monthBoundary k ≤ t) (t / 2419200 + 1)

/-- Epoch second of the start of the calendar month containing `t`. -/
def monthStart (t : Nat) : Nat := monthBoundary (monthIndex t)

/-! ## Granularity -/

/-- `Metric.Granularity` (`metrics/models.py`, reconstructed).  The enum values
are the bucket widths in seconds used by `aggregate_metrics`
(`to_gran.value`); RAW is never an aggregation target. -/
inductive Gran
  | RAW
  | HOURLY
  | DAILY
  | MONTHLY
deriving DecidableEq, Repr

/-- Modelled from the spec: the fixed bucket width in seconds of each
granularity (`HOURLY=3600, DAILY=86400, MONTHLY=2592000`); this is the enum
`value` that `aggregate_metrics` steps by.  The spec assigns RAW no width; it
is never used as an aggregation target, and we give it width 1. -/
def Gran.width : Gran → Nat
  | .RAW => 1
  | .HOURLY => 3600
  | .DAILY => 86400
  | .MONTHLY => 2592000

/-- Modelled from the spec: `Granularity.prev_granularity` — "RAW has no
predecessor; HOURLY→RAW, DAILY→HOURLY, MONTHLY→DAILY". -/
def Gran.prev_granularity : Gran → Option Gran
  | .RAW => none
  | .HOURLY => some .RAW
  | .DAILY => some .HOURLY
  | .MONTHLY => some .DAILY

/-- Modelled from the spec: `Granularity.round_down` (absent from the source
tree).  HOURLY and DAILY floor the epoch seconds to the bucket width, exactly
as the spec says; for MONTHLY the spec claims an epoch-aligned 30-day floor,
but the repository's own `test_metrics_round_down` pins the calendar-month
floor (`2024-08-22 16:45:15` ↦ `2024-08-01 00:00:00`), so MONTHLY floors to
the start of the calendar month.  RAW round_down is never invoked. -/
def Gran.round_down : Gran → Nat → Nat
  | .RAW, t => t
  | .HOURLY, t => t - t % 3600
  | .DAILY, t => t - t % 86400
  | .MONTHLY, t => monthStart t

/-! ## Metric records and aggregation (`metrics/tasks.py`) -/

/-- One stored metric row.  We embed `DataUsageMetric`, the concrete metric
type exercised by the repository's aggregation tests; `created` is epoch
seconds. -/
structure MetricRec where
  mac : Nat
  granularity : Gran
  created : Nat
  rx_bytes : Int
  tx_bytes : Int
deriving DecidableEq, Repr

/-- Python `range(a, b, s)` for a positive step, as a list. -/
def pyRange (a b s : Nat) : List Nat :=
  List.range' a ((b - a + s - 1) / s) s

/-- Minimum of a list of naturals (`queryset.order_by("created").first()`). -/
def listMin? : List Nat → Option Nat
  | [] => none
  | x :: xs =>
    match listMin? xs with
    | none => some x
    | some m => some (Nat.min x m)

/-- Maximum of a list of naturals (`queryset.order_by("created").last()`). -/
def listMax? : List Nat → Option Nat
  | [] => none
  | x :: xs =>
    match listMax? xs with
    | none => some x
    | some m => some (Nat.max x m)

/-- The queryset `metrics_for_mac.filter(created__gte=t0, created__lt=t1)`
(restricted, like `metrics_for_mac`, to one mac and the source granularity). -/
def inBucket (fromG : Gran) (mac t0 t1 : Nat) (r : MetricRec) : Bool :=
  r.granularity == fromG && r.mac == mac &&
    decide (t0 ≤ r.created) && decide (r.created < t1)

/-- Modelled from the spec: `MetricQuerySet.create_aggregated` (absent from the
source tree) — "merge them into one new record at `target_granularity` ...
whose numeric fields are the pointwise sum of the merged records". -/
def create_aggregated (mac created : Nat) (granularity : Gran)
    (ms : List MetricRec) : MetricRec :=
  { mac := mac
    granularity := granularity
    created := created
    rx_bytes := (ms.map (·.rx_bytes)).sum
    tx_bytes := (ms.map (·.tx_bytes)).sum }

/-- One iteration of the bucket loop in `aggregate_metrics`: select the
device's source-granularity records with `created` in `[t0, t0 + width)`; if
non-empty, create the aggregated record at the bucket midpoint and delete the
sources. -/
def bucketStep (fromG toG : Gran) (mac : Nat) (st : List MetricRec)
    (t0 : Nat) : List MetricRec :=
  let t1 := t0 + toG.width
  let ta := t0 + toG.width / 2
  let bucket := st.filter (inBucket fromG mac t0 t1)
  if bucket.isEmpty then st
  else st.filter (fun r => !(inBucket fromG mac t0 t1 r)) ++
    [create_aggregated mac ta toG bucket]

/-- The per-device body of `aggregate_metrics`: find the earliest and latest
`created` among the device's source records, derive `min_time` and `max_time`,
and run the bucket loop. -/
def aggForMac (fromG toG : Gran) (st : List MetricRec) (mac : Nat) :
    List MetricRec :=
  let ms := st.filter (fun r => r.granularity == fromG && r.mac == mac)
  match listMin? (ms.map (·.created)), listMax? (ms.map (·.created)) with
  | some tmin, some tmax =>
    let minT := toG.round_down tmin
    let maxT := toG.round_down tmax + toG.width
    (pyRange minT maxT toG.width).foldl (bucketStep fromG toG mac) st
  | _, _ => st

/-- `aggregate_metrics(metric_type, to_gran)` from `metrics/tasks.py`: select
all records at the previous granularity, group by mac, and aggregate each
device's completed-looking buckets.  Note: exactly like the source, there is
no comparison against the current wall-clock time anywhere. -/
def aggregate_metrics (st : List MetricRec) (toG : Gran) : List MetricRec :=
  match toG.prev_granularity with
  | none => st
  | some fromG =>
    let macs := ((st.filter (fun r => r.granularity == fromG)).map (·.mac)).dedup
    macs.foldl (aggForMac fromG toG) st

/-- Total of the `rx_bytes` field over a store
(`queryset.get_sum("rx_bytes")`). -/
def totalRx (st : List MetricRec) : Int := (st.map (·.rx_bytes)).sum

/-- Total of the `tx_bytes` field over a store. -/
def totalTx (st : List MetricRec) : Int := (st.map (·.tx_bytes)).sum

/-! ## Health checks (`monitoring/checks.py`, `backend/settings.py`) -/

/-- A Python value as seen by a check predicate: a number, a boolean, or a
timestamp. -/
inductive Value
  | vI : Int → Value
  | vB : Bool → Value
  | vT : Nat → Value
deriving DecidableEq, Repr

/-- Python truthiness, the default check function `bool`. -/
def pyTruthy : Value → Bool
  | .vI n => n != 0
  | .vB b => b
  | .vT t => t != 0

/-- Python `v < k` for the numeric thresholds in `DEVICE_CHECKS`. -/
def pyLt (v : Value) (k : Int) : Bool :=
  match v with
  | .vI n => n < k
  | .vB b => (if b then (1 : Int) else 0) < k
  | .vT t => (t : Int) < k

/-- Python `timezone.now() - v < timedelta(seconds=secs)` for a datetime
value. -/
def pyRecent (now secs : Nat) (v : Value) : Bool :=
  match v with
  | .vT t => now - t < secs
  | _ => false

/-- One health-check definition: an entry of the `DEVICE_CHECKS` list. -/
structure Check where
  title : String
  key : String
  func : Value → Bool
  feedback : Option Bool → String

/-- The three-way feedback dictionary `{None: ..., False: ..., True: ...}`. -/
def feedback3 (fNone fFalse fTrue : String) : Option Bool → String
  | none => fNone
  | some false => fFalse
  | some true => fTrue

/-- `settings.DEVICE_CHECKS`: the six device checks, in declaration order.
The two liveness checks close over `timezone.now()`, passed here as `now`. -/
def DEVICE_CHECKS (now : Nat) : List Check :=
  [ ⟨"CPU Usage", "cpu", fun v => pyLt v 80,
      feedback3 "No CPU usage recorded" "CPU usage is high"
        "CPU usage falls in an acceptable range"⟩,
    ⟨"Memory Usage", "mem", fun v => pyLt v 70,
      feedback3 "No memory usage recorded" "Memory usage is high"
        "Memory usage falls in an acceptable range"⟩,
    ⟨"Recently Contacted", "last_ping", fun v => pyRecent now 1200 v,
      feedback3 "Device has never been pinged" "Device has not been pinged recently"
        "Device has been pinged recently"⟩,
    ⟨"Active", "last_contact", fun v => pyRecent now 300 v,
      feedback3 "Device has not contacted the server"
        "Device has not been contacted the server recently" "Device is active"⟩,
    ⟨"Reachable", "reachable", pyTruthy,
      feedback3 "Device has not been contacted yet" "Device is unreachable"
        "Device is reachable"⟩,
    ⟨"RTT", "rtt", fun v => pyLt v 40,
      feedback3 "No RTT data" "Took too long to return a response"
        "Response time is acceptable"⟩ ]

/-- Modelled from the spec: `settings.MESH_CHECKS` (absent from the source
tree; `Mesh.health_checks = settings.MESH_CHECKS` and the mesh alert test
require it).  Per the spec, meshes are checked on daily and hourly data usage
against a configured threshold (650 bytes in the spec's scenario). -/
def MESH_CHECKS : List Check :=
  [ ⟨"Daily Data Usage", "daily_data_usage", fun v => pyLt v 650,
      feedback3 "No daily data usage recorded" "Daily data usage is high"
        "Daily data usage falls in an acceptable range"⟩,
    ⟨"Hourly Data Usage", "hourly_data_usage", fun v => pyLt v 650,
      feedback3 "No hourly data usage recorded" "Hourly data usage is high"
        "Hourly data usage falls in an acceptable range"⟩ ]

/-- A monitorable entity as the check engine sees it: its attributes
(`hasattr`/`getattr`), its accessor methods `get_<key>` (keyed here by the
bare key), and its `health_checks` class attribute.  A present key mapping to
`none` is Python's `None`. -/
structure Entity where
  attrs : List (String × Option Value)
  accessors : List (String × Option Value)
  health_checks : List Check

/-- The value source `run_checks` uses for a key: the attribute when present,
else the `get_<key>` accessor; `none` when the entity exposes neither. -/
def Entity.valueOf (e : Entity) (key : String) : Option (Option Value) :=
  match e.attrs.lookup key with
  | some v => some v
  | none => e.accessors.lookup key

/-- The result for a particular device check (`CheckResult` dataclass). -/
structure CheckResult where
  title : String
  key : String
  passed : Option Bool
  feedback : String
deriving DecidableEq, Repr

/-- The body of `CheckResults.run_checks` for one configured list: value from
attribute or accessor (an `AttributeError` — `Except.error` — when neither
exists), `passed = None` when the value is `None`, else the predicate. -/
def run_checks_with (cfg : List Check) (e : Entity) :
    Except Unit (List CheckResult) :=
  match cfg with
  | [] => .ok []
  | c :: rest =>
    match e.valueOf c.key with
    | none => .error ()
    | some v =>
      let passed := v.map c.func
      match run_checks_with rest e with
      | .error u => .error u
      | .ok rs =>
        .ok ({ title := c.title, key := c.key, passed := passed,
               feedback := c.feedback passed } :: rs)

/-- `CheckResults.run_checks(node)`: iterates `settings.DEVICE_CHECKS`
unconditionally, whatever entity is passed in — the entity's own
`health_checks` list is never consulted. -/
def run_checks (now : Nat) (e : Entity) : Except Unit (List CheckResult) :=
  run_checks_with (DEVICE_CHECKS now) e

/-! ## Health-status classifier (`monitoring/models.py`, `checks.py`) -/

/-- Health status choices. -/
inductive HealthStatus
  | UNKNOWN
  | CRITICAL
  | ERROR
  | WARNING
  | OK
deriving DecidableEq, Repr

/-- `CheckResults.num_failed`: `sum(1 for c in self if not c.passed)` — note
that a `None` (could-not-run) result is falsy and therefore counted. -/
def num_failed (rs : List CheckResult) : Nat :=
  rs.countP (fun c => !(c.passed.getD false))

/-- `CheckResults.num_passed`: `sum(1 for c in self if c.passed)`. -/
def num_passed (rs : List CheckResult) : Nat :=
  rs.countP (fun c => c.passed.getD false)

/-- Modelled from the spec: `CheckResults.num_run` (used by
`get_health_status` but absent from the source tree's `checks.py`) — the
number of checks that could run, i.e. whose `passed` is not `None` ("null =
check could not run", "0 runnable checks → UNKNOWN"). -/
def num_run (rs : List CheckResult) : Nat :=
  rs.countP (fun c => c.passed.isSome)

/-- `CheckResults.oll_korrect`. -/
def oll_korrect (rs : List CheckResult) : Bool := num_failed rs == 0

/-- `CheckResults.fewer_than_half_failed`: `num_failed <= len(self) / 2` with
Python float division, i.e. `2 * num_failed ≤ len`. -/
def fewer_than_half_failed (rs : List CheckResult) : Bool :=
  decide (2 * num_failed rs ≤ rs.length)

/-- `CheckResults.more_than_half_failed_but_not_all`. -/
def more_than_half_failed_but_not_all (rs : List CheckResult) : Bool :=
  decide (2 * num_failed rs > rs.length) && num_passed rs != 0

/-- `HealthStatusMixin.get_health_status`, with the check results already
computed (the mixin re-runs them and then reduces). -/
def get_health_status (rs : List CheckResult) : HealthStatus :=
  if num_run rs = 0 then .UNKNOWN
  else if oll_korrect rs then .OK
  else if fewer_than_half_failed rs then .WARNING
  else if more_than_half_failed_but_not_all rs then .ERROR
  else .CRITICAL

/-- The classifier exactly as the specification words it (for comparison with
`get_health_status`): null results are excluded from both `failed` and
`total`, and the tie-break table is applied in the spec's order. -/
def specClassify (rs : List CheckResult) : HealthStatus :=
  if rs.isEmpty then .UNKNOWN
  else
    let failed := rs.countP (fun c => c.passed == some false)
    let passedN := rs.countP (fun c => c.passed == some true)
    let total := failed + passedN
    if total = 0 then .UNKNOWN
    else if failed = 0 then .OK
    else if 2 * failed ≤ total then .WARNING
    else if 2 * failed > total ∧ 0 < passedN then .ERROR
    else .CRITICAL

/-! ## Alerts (`monitoring/models.py`) -/

/-- `Alert.Level` values (`WARNING = 1, ERROR = 2, CRITICAL = 3`), kept as the
underlying integers because `apply` compares them with `>`. -/
def LV_WARNING : Nat := 1

/-- `Alert.Level.ERROR`. -/
def LV_ERROR : Nat := 2

/-- `Alert.Level.CRITICAL`. -/
def LV_CRITICAL : Nat := 3

/-- `Alert.Status` choices. -/
inductive AStatus
  | NEW
  | UPGRADED
  | RENAME
  | RESOLVED
deriving DecidableEq, Repr

/-- The node row an alert's `node` foreign key points at: its primary key
(mac) and its mesh. -/
structure NodeRef where
  mac : Nat
  mesh : Option String
deriving DecidableEq, Repr

/-- An `Alert` row.  `id` is the primary key, `created` the epoch-second
creation time used by `order_by("-created")`. -/
structure Alert where
  id : Nat
  level : Nat
  status : AStatus
  title : String
  text : String
  created : Nat
  node : Option NodeRef
  mesh : Option String
deriving DecidableEq, Repr

/-- `timezone.now().strftime("%Y-%m-%d %H:%M:%S")`, abstracted to the decimal
epoch seconds; only its placement inside the text matters to the claims. -/
def fmtTs (now : Nat) : String := toString now

/-- `Alert.add_event`: prepend a timestamped event line to the alert text. -/
def add_event (now : Nat) (text old : String) : String :=
  "_" ++ fmtTs now ++ "_ " ++ text ++ "\n" ++ old

/-- `Alert.upgrade`: copy the candidate's level and title, prepend the
candidate's text as an event line, and mark the alert UPGRADED. -/
def Alert.upgradeWith (a c : Alert) (now : Nat) : Alert :=
  { a with level := c.level, title := c.title,
           text := add_event now c.text a.text, status := .UPGRADED }

/-- `Alert.rename`: exactly the source's statement order — `self.title` is
overwritten with the candidate's title first, and only then is the
`"Renamed {self.title} -> {alert.title}"` event composed from the (already
updated) `self.title`. -/
def Alert.renameWith (a c : Alert) (now : Nat) : Alert :=
  let a1 := { a with title := c.title }
  { a1 with text := add_event now ("Renamed " ++ a1.title ++ " -> " ++ c.title) a1.text,
            status := .RENAME }

/-- `Alert.resolve`. -/
def Alert.resolveA (a : Alert) (now : Nat) : Alert :=
  { a with status := .RESOLVED, text := add_event now "Resolved this alert" a.text }

/-- The scope an alert set is filtered by: `Node.get_alerts` filters
`(mesh=self.mesh, node=self)` and `Mesh.get_alerts` filters
`(mesh=self, node=None)`. -/
inductive Scope
  | nodeScope (mac : Nat) (mesh : Option String)
  | meshScope (name : String)
deriving DecidableEq, Repr

/-- Whether an alert row matches a scope's `get_alerts` filter. -/
def scopeMatch (s : Scope) (a : Alert) : Bool :=
  match s with
  | .nodeScope mac mesh => a.node.map (·.mac) == some mac && a.mesh == mesh
  | .meshScope name => a.mesh == some name && a.node == none

/-- The scope `Alert.apply` resolves from the candidate:
`obj = self.node if self.node is not None else self.mesh`; `none` when the
candidate has neither (the `apply` returns-False path). -/
def Alert.scope? (c : Alert) : Option Scope :=
  match c.node with
  | some n => some (.nodeScope n.mac n.mesh)
  | none =>
    match c.mesh with
    | some m => some (.meshScope m)
    | none => none

/-- Whether an alert row is in the scope and not RESOLVED — the predicate of
`obj.get_alerts().exclude(status=Alert.Status.RESOLVED)`. -/
def unresolvedMatch (s : Scope) (a : Alert) : Bool :=
  scopeMatch s a && a.status != .RESOLVED

/-- `obj.get_alerts().exclude(status=Alert.Status.RESOLVED)`. -/
def unresolvedIn (alerts : List Alert) (s : Scope) : List Alert :=
  alerts.filter (unresolvedMatch s)

/-- `unresolved_alerts.order_by("-created").first()`: the most recently
created alert, the earlier row winning ties. -/
def latest? : List Alert → Option Alert
  | [] => none
  | a :: rest =>
    match latest? rest with
    | none => some a
    | some b => some (if b.created > a.created then b else a)

/-- `Alert.apply`.  The branch analysis runs against the pre-state; the final
`unresolved_alerts.filter(level__gt=self.level)` is a lazy queryset and is
re-evaluated against the mutated table, exactly as in Django. -/
def Alert.apply (alerts : List Alert) (c : Alert) (now : Nat) :
    List Alert × Bool :=
  match c.scope? with
  | none => (alerts, false)
  | some s =>
    let unresolved := unresolvedIn alerts s
    let step1 : List Alert × Bool :=
      match latest? unresolved with
      | none => (alerts ++ [c], true)
      | some la =>
        if c.level > la.level then
          (alerts.map (fun a => if a.id == la.id then a.upgradeWith c now else a), true)
        else if c.level == la.level && c.title != la.title then
          (alerts.map (fun a => if a.id == la.id then a.renameWith c now else a), true)
        else (alerts, false)
    (step1.1.map (fun a =>
        if unresolvedMatch s a && decide (c.level < a.level)
        then a.resolveA now else a),
     step1.2)

/-- `Alert.apply` exactly as the specification words it (for comparison):
the same case analysis, but "persist the candidate as NEW" is taken
literally, and the set of alerts to resolve afterwards — "every unresolved
alert for the scope whose level is strictly greater than candidate.level" —
is determined from the state as it was when `apply` began. -/
def specApply (alerts : List Alert) (c : Alert) (now : Nat) :
    List Alert × Bool :=
  match c.scope? with
  | none => (alerts, false)
  | some s =>
    let unresolved := unresolvedIn alerts s
    let resolveIds := (unresolved.filter (fun a => decide (c.level < a.level))).map (·.id)
    let step1 : List Alert × Bool :=
      match latest? unresolved with
      | none => (alerts ++ [{ c with status := .NEW }], true)
      | some la =>
        if c.level > la.level then
          (alerts.map (fun a => if a.id == la.id then a.upgradeWith c now else a), true)
        else if c.level == la.level && c.title != la.title then
          (alerts.map (fun a => if a.id == la.id then a.renameWith c now else a), true)
        else (alerts, false)
    (step1.1.map (fun a => if resolveIds.contains a.id then a.resolveA now else a),
     step1.2)

/-- The no-candidate path of `HealthStatusMixin.generate_alert`: every
unresolved alert of the entity's scope is resolved. -/
def resolveScope (alerts : List Alert) (s : Scope) (now : Nat) : List Alert :=
  alerts.map (fun a => if unresolvedMatch s a then a.resolveA now else a)

/-- Number of unresolved alerts of a scope in the table — the quantity the
at-most-one invariant bounds. -/
def unresolvedCount (alerts : List Alert) (s : Scope) : Nat :=
  (unresolvedIn alerts s).length

/-- A candidate alert whose `mesh` field agrees with its node's mesh — true
of every candidate `Alert.create` builds (`mesh = node.mesh`). -/
def scopeConsistent (c : Alert) : Prop :=
  ∀ n, c.node = some n → c.mesh = n.mesh

/-! ## Alert creation (`Alert.create`) -/

/-- `Node.Status` choices. -/
inductive NStatus
  | UNKNOWN
  | OFFLINE
  | ONLINE
  | REBOOTING
deriving DecidableEq, Repr

/-- The slice of a `Node` row that `Alert.create` consults: primary key,
mesh, online status, and the attribute environment its health checks read. -/
structure NodeM where
  mac : Nat
  mesh : Option String
  status : NStatus
  env : Entity

/-- The slice of a `Mesh` row that `Alert.create` consults. -/
structure MeshM where
  name : String
  env : Entity

/-- `Alert.TITLE_OFFLINE`. -/
def TITLE_OFFLINE : String := "Node is offline"

/-- `Alert.TITLE_HEALTH_BAD`. -/
def TITLE_HEALTH_BAD : String := "Node's health is bad"

/-- `Alert.TITLE_HEALTH_CRITICAL`. -/
def TITLE_HEALTH_CRITICAL : String := "Node's health is critical"

/-- `Alert.TEXT_OFFLINE`. -/
def TEXT_OFFLINE : String := "The device is unreachable by ping"

/-- `", ".join(c.key for c in obj.check_results if c.passed is False)` — note
`is False`, so `None` results are not listed here. -/
def failedKeys (rs : List CheckResult) : String :=
  String.intercalate ", " ((rs.filter (fun c => c.passed == some false)).map (·.key))

/-- `Alert.TEXT_HEALTH_BAD_OR_CRITICAL.format(...)` with the event timestamp
prefix used at creation. -/
def healthText (now : Nat) (rs : List CheckResult) : String :=
  "_" ++ fmtTs now ++ "_ " ++ "The following health checks failed: " ++ failedKeys rs

/-- `Alert.create` for a `Node` argument: re-run the health checks (this can
raise, hence `Except`), then synthesize the offline / critical / error
candidate or `none`.  Both `node` and `mesh` are filled in from the node — a
node-scoped candidate carries the node's mesh too.  The candidate is unsaved,
so its primary key is the model default 0 and its status the field default
NEW. -/
def Alert.createNode (n : NodeM) (now : Nat) : Except Unit (Option Alert) :=
  match run_checks now n.env with
  | .error u => .error u
  | .ok rs =>
    let hs := get_health_status rs
    if n.status = .OFFLINE then
      .ok (some { id := 0, level := LV_CRITICAL, status := .NEW,
                  title := TITLE_OFFLINE,
                  text := "_" ++ fmtTs now ++ "_ " ++ TEXT_OFFLINE,
                  created := now, node := some ⟨n.mac, n.mesh⟩, mesh := n.mesh })
    else if hs ≠ .OK then
      if hs = .CRITICAL then
        .ok (some { id := 0, level := LV_CRITICAL, status := .NEW,
                    title := TITLE_HEALTH_CRITICAL, text := healthText now rs,
                    created := now, node := some ⟨n.mac, n.mesh⟩, mesh := n.mesh })
      else if hs = .ERROR ∨ hs = .WARNING then
        .ok (some { id := 0, level := LV_ERROR, status := .NEW,
                    title := TITLE_HEALTH_BAD, text := healthText now rs,
                    created := now, node := some ⟨n.mac, n.mesh⟩, mesh := n.mesh })
      else .ok none
    else .ok none

/-- `Alert.create` for a `Mesh` argument: `node = None, mesh = obj`; the
offline branch cannot fire (`node` is falsy), the health branches are as for
nodes. -/
def Alert.createMesh (m : MeshM) (now : Nat) : Except Unit (Option Alert) :=
  match run_checks now m.env with
  | .error u => .error u
  | .ok rs =>
    let hs := get_health_status rs
    if hs ≠ .OK then
      if hs = .CRITICAL then
        .ok (some { id := 0, level := LV_CRITICAL, status := .NEW,
                    title := TITLE_HEALTH_CRITICAL, text := healthText now rs,
                    created := now, node := none, mesh := some m.name })
      else if hs = .ERROR ∨ hs = .WARNING then
        .ok (some { id := 0, level := LV_ERROR, status := .NEW,
                    title := TITLE_HEALTH_BAD, text := healthText now rs,
                    created := now, node := none, mesh := some m.name })
      else .ok none
    else .ok none

/-! ## Derived definitions and concrete instances used by the theorems -/

/-- The classifier table that `get_health_status` actually implements, with
the counts written out: a could-not-run (`None`) result is counted as failed,
and the WARNING/ERROR threshold is taken against the full result count
including `None` results. -/
def amendedClassify (rs : List CheckResult) : HealthStatus :=
  let failed := rs.countP (fun c => c.passed != some true)
  let passedN := rs.countP (fun c => c.passed == some true)
  let runnable := rs.countP (fun c => c.passed != none)
  if runnable = 0 then .UNKNOWN
  else if failed = 0 then .OK
  else if 2 * failed ≤ rs.length then .WARNING
  else if 0 < passedN then .ERROR
  else .CRITICAL

/-- The source-granularity records of one device
(`metrics.filter(mac=mac)`). -/
def srcOf (fromG : Gran) (mac : Nat) (st : List MetricRec) : List MetricRec :=
  st.filter (fun r => r.granularity == fromG && r.mac == mac)

/-- Survivor shape of a device's source set after an aggregation run: every
remaining record lies at or beyond the end of the bucket of the latest
sample, and still rounds down to the same bucket start `b`.  The empty set
qualifies trivially. -/
def SurvivorShape (toG : Gran) (ms : List MetricRec) : Prop :=
  ms = [] ∨ ∃ b, ∀ r ∈ ms, toG.round_down r.created = b ∧ b + toG.width ≤ r.created

/-- The one-device source predicate of `aggForMac`
(`granularity == fromG and mac == mac`). -/
def srcB (fromG : Gran) (mac : Nat) (r : MetricRec) : Bool :=
  r.granularity == fromG && r.mac == mac

/-- The `created in [t0, t1)` part of the bucket queryset. -/
def rangeB (t0 t1 : Nat) (r : MetricRec) : Bool :=
  decide (t0 ≤ r.created) && decide (r.created < t1)

/-- Whether a record's `created` falls in any bucket of a grid of bucket
starts. -/
def coveredB (toG : Gran) (grid : List Nat) (r : MetricRec) : Bool :=
  grid.any (fun t0 => rangeB t0 (t0 + toG.width) r)

/-- A store with two raw data-usage samples inside the hour
`[2024-08-22 16:00, 17:00)`: the records of
`test_metric_aggregation_ignores_recent_metrics` created 16:16 and 16:30. -/
def storeC1 : List MetricRec :=
  [ ⟨1, .RAW, 1724343360, 10, 0⟩, ⟨1, .RAW, 1724344200, 10, 10⟩ ]

/-- An entity exposing every `DEVICE_CHECKS` key as an attribute; memory and
reachability carry values, the rest are Python `None`. -/
def nodeEnv : Entity :=
  { attrs := [("cpu", none), ("mem", some (.vI 50)), ("last_ping", none),
              ("last_contact", none), ("reachable", some (.vB true)), ("rtt", none)]
    accessors := []
    health_checks := [] }

/-- An entity shaped like a `Mesh`: none of the device-check keys resolve,
only the mesh accessors `get_daily_data_usage` / `get_hourly_data_usage`
exist, and the `health_checks` class attribute is the mesh list. -/
def meshEnv : Entity :=
  { attrs := []
    accessors := [("daily_data_usage", some (.vI 750)),
                  ("hourly_data_usage", some (.vI 750))]
    health_checks := MESH_CHECKS }

/-- An entity exposing no value source at all. -/
def bareEnv : Entity := { attrs := [], accessors := [], health_checks := [] }

/-- An offline node inside mesh `"m"`. -/
def offlineNode : NodeM := { mac := 1, mesh := some "m", status := .OFFLINE, env := nodeEnv }

/-- A mesh whose environment answers the device checks with failing values,
so that its health comes out non-OK (used to exercise `Alert.createMesh`). -/
def failingMesh : MeshM :=
  { name := "m2"
    env := { attrs := [("cpu", some (.vI 95)), ("mem", some (.vI 90)),
                       ("last_ping", some (.vT 0)), ("last_contact", some (.vT 0)),
                       ("reachable", some (.vB false)), ("rtt", some (.vI 100))]
             accessors := []
             health_checks := MESH_CHECKS } }

/-- The candidate alert `Alert.createNode offlineNode 0` produces. -/
def offlineAlert : Alert :=
  { id := 0, level := LV_CRITICAL, status := .NEW, title := TITLE_OFFLINE,
    text := "_0_ The device is unreachable by ping", created := 0,
    node := some ⟨1, some "m"⟩, mesh := some "m" }

/-- A result set with one passed check and one that could not run. -/
def rsC2 : List CheckResult := [⟨"A", "a", some true, "ok"⟩, ⟨"B", "b", none, "no data"⟩]

/-- The candidate alert `Alert.createMesh failingMesh 0` produces. -/
def meshAlert : Alert :=
  { id := 0, level := LV_ERROR, status := .NEW, title := TITLE_HEALTH_BAD,
    text := "_0_ The following health checks failed: cpu, mem, reachable, rtt",
    created := 0, node := none, mesh := some "m2" }

/-! ## Lemmas and claim theorems -/

theorem monthStart_le (t : Nat) : monthStart t ≤ t := by
  have h0 : monthBoundary 0 ≤ t := by simp [monthBoundary, monthDays]
  simp only [monthStart, monthIndex]
  exact @Nat.findGreatest_spec 0 (fun k => monthBoundary k ≤ t) _ _ (Nat.zero_le _) h0

/-- C10: `Alert.rename` overwrites the title before composing the logged
event, so the prepended event line reads `Renamed {c.title} -> {c.title}` —
it mentions only the candidate's (new) title on both sides, and the
pre-rename title does not enter the event; the rest of the surviving text is
the alert's previous text unchanged. -/
theorem C10_rename_event_uses_new_title :
    ∀ (a c : Alert) (now : Nat),
      (a.renameWith c now).title = c.title ∧
      (a.renameWith c now).status = .RENAME ∧
      (a.renameWith c now).text =
        add_event now ("Renamed " ++ c.title ++ " -> " ++ c.title) a.text := by
  intro a c now
  exact ⟨rfl, rfl, rfl⟩

/-- C6 (counterexample): at `t = 2024-08-31 12:00:00 UTC` the MONTHLY
`round_down` returns the calendar month start `2024-08-01`, which violates
both halves of the claim: `t` is not below `round_down(t) + width(MONTHLY)`,
and the result is not an epoch-aligned multiple of the 2592000-second
width. -/
theorem C6_counterexample :
    Gran.round_down .MONTHLY 1725105600 = 1722470400 ∧
    ¬(1725105600 < 1722470400 + 2592000) ∧
    1722470400 % 2592000 ≠ 0 := by
  refine ⟨by decide, by decide, by decide⟩

/-- C6 (amended): for HOURLY and DAILY, `round_down` is the greatest
epoch-aligned multiple of the width that is `≤ t` (hence
`round_down(t) ≤ t < round_down(t) + width`); for MONTHLY, `round_down`
floors to the start of the calendar month containing `t` (still `≤ t`, as
pinned by `test_metrics_round_down`), which is not epoch-aligned. -/
theorem C6_round_down_bounds :
    (∀ t : Nat,
      Gran.round_down .HOURLY t = 3600 * (t / 3600) ∧
      t < Gran.round_down .HOURLY t + 3600 ∧
      Gran.round_down .DAILY t = 86400 * (t / 86400) ∧
      t < Gran.round_down .DAILY t + 86400 ∧
      Gran.round_down .MONTHLY t ≤ t) ∧
    Gran.round_down .MONTHLY 1724345115 = 1722470400 := by
  constructor
  · intro t
    refine ⟨?_, ?_, ?_, ?_, monthStart_le t⟩ <;> simp only [Gran.round_down] <;> omega
  · decide

/-- C1 (code bug): `aggregate_metrics` never consults the wall clock.  With
`now = 2024-08-22 16:50`, the hour bucket `[16:00, 17:00)` has not elapsed
(`now < t1`), the store holds two raw records inside it, and yet the run
deletes both sources and emits an aggregated record for that bucket — the
behaviour `test_metric_aggregation_ignores_recent_metrics` rules out. -/
theorem C1_aggregates_unelapsed_bucket :
    (1724345400 : Nat) < 1724346000 ∧
    storeC1.countP (fun r => r.granularity == .RAW &&
      decide (1724342400 ≤ r.created) && decide (r.created < 1724346000)) = 2 ∧
    aggregate_metrics storeC1 .HOURLY = [⟨1, .HOURLY, 1724344200, 20, 10⟩] := by
  refine ⟨by decide, by decide, by decide⟩

/-- C7 (code bug): `CheckResults.run_checks` iterates `settings.DEVICE_CHECKS`
for every entity, ignoring the entity's own `health_checks` list.  On a
mesh-shaped entity it therefore fails with `AttributeError` at the first
device key (`cpu`), while running the entity's configured mesh list — as the
claim and `Mesh.health_checks = settings.MESH_CHECKS` prescribe — would have
produced one result per configured check in declaration order. -/
theorem C7_mesh_checked_with_device_list :
    run_checks 0 meshEnv = .error () ∧
    meshEnv.health_checks = MESH_CHECKS ∧
    run_checks_with meshEnv.health_checks meshEnv = .ok
      [ ⟨"Daily Data Usage", "daily_data_usage", some false, "Daily data usage is high"⟩,
        ⟨"Hourly Data Usage", "hourly_data_usage", some false, "Hourly data usage is high"⟩ ] := by
  exact ⟨rfl, rfl, rfl⟩

/-- C8 (counterexample): on an entity exposing no value source for any key,
`run_checks` does not return null-passed results — it raises
(`AttributeError`, the error outcome), even though checks are configured. -/
theorem C8_counterexample :
    run_checks 0 bareEnv = .error () ∧
    (DEVICE_CHECKS 0).length = 6 ∧
    bareEnv.valueOf "cpu" = none := by
  exact ⟨rfl, rfl, rfl⟩

/-- C9 (counterexample): the lifecycle produces alerts with BOTH scope fields
set: for an offline node belonging to mesh `"m"`, `Alert.create` fills in
`node=the node` and `mesh=the node's mesh`, contradicting "exactly one of
node and mesh is set, never both". -/
theorem C9_counterexample :
    Alert.createNode offlineNode 0 = .ok (some offlineAlert) ∧
    offlineAlert.node.isSome = true ∧
    offlineAlert.mesh.isSome = true := by
  exact ⟨rfl, rfl, rfl⟩

/-- C2 (counterexample): on one passed check plus one could-not-run check the
code returns WARNING (the null result is counted as failed against a total
that includes it), while the claim's table — nulls excluded — returns OK. -/
theorem C2_counterexample :
    get_health_status rsC2 = .WARNING ∧
    specClassify rsC2 = .OK ∧
    HealthStatus.WARNING ≠ HealthStatus.OK := by
  exact ⟨rfl, rfl, by decide⟩

theorem get_health_status_eq_amended (rs : List CheckResult) :
    get_health_status rs = amendedClassify rs := by
  have hfun1 : (fun c : CheckResult => c.passed.isSome) =
      (fun c : CheckResult => c.passed != none) := by
    funext c; cases c.passed <;> rfl
  have hfun2 : (fun c : CheckResult => !(c.passed.getD false)) =
      (fun c : CheckResult => c.passed != some true) := by
    funext c
    rcases c.passed with _ | b
    · rfl
    · cases b <;> rfl
  have hfun3 : (fun c : CheckResult => c.passed.getD false) =
      (fun c : CheckResult => c.passed == some true) := by
    funext c
    rcases c.passed with _ | b
    · rfl
    · cases b <;> rfl
  simp only [get_health_status, amendedClassify, num_run, num_failed, num_passed,
    oll_korrect, fewer_than_half_failed, more_than_half_failed_but_not_all,
    hfun1, hfun2, hfun3, beq_iff_eq, Bool.and_eq_true, decide_eq_true_eq,
    bne_iff_ne, ne_eq, gt_iff_lt]
  split_ifs <;> first | rfl | omega

theorem spec_eq_amended_of_no_null (rs : List CheckResult)
    (h : ∀ c ∈ rs, c.passed ≠ none) : specClassify rs = amendedClassify rs := by
  have hrun : rs.countP (fun c => c.passed != none) = rs.length := by
    rw [List.countP_eq_length]
    intro c hc
    simpa using h c hc
  have hfail : rs.countP (fun c => c.passed == some false) =
      rs.countP (fun c => c.passed != some true) := by
    rw [List.countP_eq_length_filter, List.countP_eq_length_filter,
      List.filter_congr (fun c hc => ?_)]
    have := h c hc
    rcases hp : c.passed with _ | b
    · exact absurd hp this
    · cases b <;> rfl
  have hsplit : rs.countP (fun c => c.passed == some false) +
      rs.countP (fun c => c.passed == some true) = rs.length := by
    have hpart := List.length_eq_countP_add_countP
      (fun c : CheckResult => c.passed == some true) rs
    have hcompl : rs.countP
        (fun a : CheckResult => decide ¬((a.passed == some true) = true)) =
        rs.countP (fun c => c.passed == some false) := by
      rw [List.countP_eq_length_filter, List.countP_eq_length_filter,
        List.filter_congr (fun c hc => ?_)]
      have := h c hc
      rcases hp : c.passed with _ | b
      · exact absurd hp this
      · cases b <;> simp [hp]
    omega
  have hempty : rs.isEmpty = true ↔ rs.length = 0 := by
    cases rs <;> simp
  simp only [specClassify, amendedClassify, hrun, hfail]
  split_ifs <;> first | rfl | omega | simp_all

/-- C2 (amended): the computed health status equals the tie-break table with
the counts the code actually uses — `failed` counts every result whose
`passed` is not `true` (could-not-run results included) and the
WARNING/ERROR threshold is taken against the full result count — UNKNOWN
exactly when no result has a non-null `passed`; on result sets without null
results this coincides with the spec's null-excluding table. -/
theorem C2_classifier :
    ∀ rs : List CheckResult,
      get_health_status rs = amendedClassify rs ∧
      ((∀ c ∈ rs, c.passed ≠ none) → get_health_status rs = specClassify rs) := by
  intro rs
  refine ⟨get_health_status_eq_amended rs, fun h => ?_⟩
  rw [get_health_status_eq_amended rs, spec_eq_amended_of_no_null rs h]

/-- C2 witness: the amended classifier theorem applied to a concrete
all-ran result set. -/
theorem C2_classifier_witness :
    get_health_status [⟨"A", "a", some false, "f"⟩] =
      amendedClassify [⟨"A", "a", some false, "f"⟩] ∧
    get_health_status [⟨"A", "a", some false, "f"⟩] =
      specClassify [⟨"A", "a", some false, "f"⟩] := by
  have h := C2_classifier [⟨"A", "a", some false, "f"⟩]
  exact ⟨h.1, h.2 (by decide)⟩

theorem run_checks_with_ok (cfg : List Check) (e : Entity)
    (h : ∀ c ∈ cfg, (e.valueOf c.key).isSome) :
    run_checks_with cfg e = .ok (cfg.map (fun c =>
      let p := ((e.valueOf c.key).getD none).map c.func
      ⟨c.title, c.key, p, c.feedback p⟩)) := by
  induction cfg with
  | nil => rfl
  | cons c rest ih =>
    have hc := h c (List.mem_cons_self c rest)
    rcases hv : e.valueOf c.key with _ | v
    · rw [hv] at hc
      simp at hc
    · simp only [run_checks_with, hv]
      rw [ih (fun c' hc' => h c' (List.mem_cons_of_mem _ hc'))]
      simp [hv]

/-- C8 (amended): when every configured key has a value source on the entity,
`run_checks` succeeds and returns one result per check; a source that yields
Python `None` produces `passed = null` with the check's null feedback, and a
source yielding a value produces `passed = predicate(value)` with that
outcome's feedback.  A key with no value source at all, however, makes
`run_checks` raise (see the counterexample) instead of producing a null
result. -/
theorem C8_value_source_handling :
    ∀ (e : Entity) (now : Nat),
      (∀ c ∈ DEVICE_CHECKS now, (e.valueOf c.key).isSome) →
      run_checks now e = .ok ((DEVICE_CHECKS now).map (fun c =>
        let p := ((e.valueOf c.key).getD none).map c.func
        ⟨c.title, c.key, p, c.feedback p⟩)) := by
  intro e now h
  exact run_checks_with_ok _ e h

/-- C8 witness: the amended theorem applied to an entity exposing all six
device-check keys, several of them with `None` values. -/
theorem C8_value_source_handling_witness :
    run_checks 0 nodeEnv = .ok ((DEVICE_CHECKS 0).map (fun c =>
      let p := ((nodeEnv.valueOf c.key).getD none).map c.func
      ⟨c.title, c.key, p, c.feedback p⟩)) :=
  C8_value_source_handling nodeEnv 0 (by decide)

/-- C9 (amended): every alert the lifecycle creates for a `Node` carries
`node = the node` AND `mesh = the node's mesh` — both scope fields are set
whenever the node belongs to a mesh — while every alert created for a `Mesh`
carries `node = None` and the mesh only.  The scope is told apart by whether
`node` is set, not by exactly one field being non-null. -/
theorem C9_scope_fields :
    ∀ (n : NodeM) (m : MeshM) (now : Nat) (a b : Alert),
      (Alert.createNode n now = .ok (some a) →
        a.node = some ⟨n.mac, n.mesh⟩ ∧ a.mesh = n.mesh) ∧
      (Alert.createMesh m now = .ok (some b) →
        b.node = none ∧ b.mesh = some m.name) := by
  intro n m now a b
  constructor
  · intro h
    unfold Alert.createNode at h
    cases hrc : run_checks now n.env with
    | error u => rw [hrc] at h; cases h
    | ok rs =>
      rw [hrc] at h
      simp only [] at h
      split_ifs at h <;> (try cases h) <;> exact ⟨rfl, rfl⟩
  · intro h
    unfold Alert.createMesh at h
    cases hrc : run_checks now m.env with
    | error u => rw [hrc] at h; cases h
    | ok rs =>
      rw [hrc] at h
      simp only [] at h
      split_ifs at h <;> (try cases h) <;> exact ⟨rfl, rfl⟩

/-- C9 witness: the amended theorem applied to the offline node and the
failing mesh, whose candidates are computed concretely. -/
theorem C9_scope_fields_witness :
    (offlineAlert.node = some ⟨offlineNode.mac, offlineNode.mesh⟩ ∧
      offlineAlert.mesh = offlineNode.mesh) ∧
    (meshAlert.node = none ∧ meshAlert.mesh = some failingMesh.name) := by
  have h := C9_scope_fields offlineNode failingMesh 0 offlineAlert meshAlert
  exact ⟨h.1 rfl, h.2 rfl⟩

theorem latest?_eq_none {l : List Alert} : latest? l = none ↔ l = [] := by
  cases l with
  | nil => simp [latest?]
  | cons a rest => cases h : latest? rest <;> simp [latest?, h]

theorem latest?_mem {l : List Alert} {a : Alert} (h : latest? l = some a) :
    a ∈ l := by
  induction l with
  | nil => cases h
  | cons x rest ih =>
    rw [latest?] at h
    cases hr : latest? rest with
    | none =>
      rw [hr] at h
      simp only [Option.some.injEq] at h
      subst h
      exact List.mem_cons_self _ _
    | some b =>
      rw [hr] at h
      simp only [Option.some.injEq] at h
      by_cases hc : b.created > x.created
      · rw [if_pos hc] at h
        subst h
        exact List.mem_cons_of_mem _ (ih hr)
      · rw [if_neg hc] at h
        subst h
        exact List.mem_cons_self _ _

theorem scopeMatch_resolveA (s : Scope) (a : Alert) (now : Nat) :
    scopeMatch s (a.resolveA now) = scopeMatch s a := by
  cases s <;> rfl

theorem scopeMatch_upgradeWith (s : Scope) (a c : Alert) (now : Nat) :
    scopeMatch s (a.upgradeWith c now) = scopeMatch s a := by
  cases s <;> rfl

theorem scopeMatch_renameWith (s : Scope) (a c : Alert) (now : Nat) :
    scopeMatch s (a.renameWith c now) = scopeMatch s a := by
  cases s <;> rfl

theorem unresolvedMatch_resolveA (s : Scope) (a : Alert) (now : Nat) :
    unresolvedMatch s (a.resolveA now) = false := by
  simp [unresolvedMatch, Alert.resolveA]

theorem unresolvedMatch_eq_true {s : Scope} {a : Alert} :
    unresolvedMatch s a = true ↔ scopeMatch s a = true ∧ a.status ≠ .RESOLVED := by
  simp [unresolvedMatch]

theorem mem_unresolvedIn {alerts : List Alert} {s : Scope} {a : Alert} :
    a ∈ unresolvedIn alerts s ↔ a ∈ alerts ∧ unresolvedMatch s a = true :=
  List.mem_filter

theorem unresolvedCount_eq (alerts : List Alert) (s : Scope) :
    unresolvedCount alerts s = alerts.countP (unresolvedMatch s) := by
  simp [unresolvedCount, unresolvedIn, List.countP_eq_length_filter]

theorem scopeMatch_unique {s s' : Scope} {a : Alert} (h : scopeMatch s a = true)
    (h' : scopeMatch s' a = true) : s = s' := by
  cases s with
  | nodeScope mac mesh =>
    cases s' with
    | nodeScope mac' mesh' =>
      simp only [scopeMatch, Bool.and_eq_true, beq_iff_eq] at h h'
      obtain ⟨h1, h2⟩ := h
      obtain ⟨h1', h2'⟩ := h'
      rw [h1] at h1'
      rw [h2] at h2'
      simp only [Option.some.injEq] at h1'
      rw [h1', h2']
    | meshScope name =>
      simp only [scopeMatch, Bool.and_eq_true, beq_iff_eq] at h h'
      rw [h'.2] at h
      simp at h
  | meshScope name =>
    cases s' with
    | nodeScope mac' mesh' =>
      simp only [scopeMatch, Bool.and_eq_true, beq_iff_eq] at h h'
      rw [h.2] at h'
      simp at h'
    | meshScope name' =>
      simp only [scopeMatch, Bool.and_eq_true, beq_iff_eq] at h h'
      rw [h.1] at h'
      simp only [Option.some.injEq] at h'
      rw [h'.1]

theorem scope?_scopeMatch_self {c : Alert} {s0 : Scope} (hsc : c.scope? = some s0)
    (hcons : scopeConsistent c) : scopeMatch s0 c = true := by
  unfold Alert.scope? at hsc
  cases hn : c.node with
  | some n =>
    rw [hn] at hsc
    simp only [Option.some.injEq] at hsc
    subst hsc
    have hm := hcons n hn
    simp [scopeMatch, hn, hm]
  | none =>
    rw [hn] at hsc
    cases hmm : c.mesh with
    | some m =>
      rw [hmm] at hsc
      simp only [Option.some.injEq] at hsc
      subst hsc
      simp [scopeMatch, hn, hmm]
    | none =>
      rw [hmm] at hsc
      cases hsc

theorem scope?_match_forces {c : Alert} {s0 : Scope} (hsc : c.scope? = some s0)
    (hcons : scopeConsistent c) {s : Scope} (h : scopeMatch s c = true) :
    s = s0 :=
  scopeMatch_unique h (scope?_scopeMatch_self hsc hcons)

theorem alert_id_inj {alerts : List Alert} (hnodup : (alerts.map (·.id)).Nodup)
    {a b : Alert} (ha : a ∈ alerts) (hb : b ∈ alerts) (h : a.id = b.id) :
    a = b :=
  List.inj_on_of_nodup_map hnodup ha hb h

theorem countP_resolve_le (s s0 : Scope) (c : Alert) (now : Nat) (l : List Alert) :
    List.countP (unresolvedMatch s) (l.map (fun a =>
      if unresolvedMatch s0 a && decide (c.level < a.level) then a.resolveA now
      else a)) ≤ List.countP (unresolvedMatch s) l := by
  rw [List.countP_map]
  apply List.countP_mono_left
  intro a ha h
  simp only [Function.comp] at h
  by_cases hcond : (unresolvedMatch s0 a && decide (c.level < a.level)) = true
  · rw [if_pos hcond, unresolvedMatch_resolveA] at h
    cases h
  · rwa [if_neg hcond] at h

theorem countP_resolve_map_le (s s0 : Scope) (c : Alert) (now : Nat)
    (l : List Alert) (g : Alert → Alert)
    (hg : ∀ a ∈ l, unresolvedMatch s (g a) = true → unresolvedMatch s a = true) :
    List.countP (unresolvedMatch s) ((l.map g).map (fun a =>
      if unresolvedMatch s0 a && decide (c.level < a.level) then a.resolveA now
      else a)) ≤ List.countP (unresolvedMatch s) l := by
  rw [List.countP_map, List.countP_map]
  apply List.countP_mono_left
  intro a ha h
  simp only [Function.comp] at h
  by_cases hcond : (unresolvedMatch s0 (g a) && decide (c.level < (g a).level)) = true
  · rw [if_pos hcond, unresolvedMatch_resolveA] at h
    cases h
  · rw [if_neg hcond] at h
    exact hg a ha h

theorem apply_unresolved_le :
    ∀ (alerts : List Alert) (c : Alert) (now : Nat) (s : Scope),
      (alerts.map (·.id)).Nodup → scopeConsistent c →
      unresolvedCount alerts s ≤ 1 →
      unresolvedCount (Alert.apply alerts c now).1 s ≤ 1 := by
  intro alerts c now s hnodup hcons hpre
  rw [unresolvedCount_eq] at hpre
  rw [unresolvedCount_eq]
  cases hsc : c.scope? with
  | none =>
    simp only [Alert.apply, hsc]
    exact hpre
  | some s0 =>
    cases hla : latest? (unresolvedIn alerts s0) with
    | none =>
      simp only [Alert.apply, hsc, hla]
      have hunres : unresolvedIn alerts s0 = [] := latest?_eq_none.mp hla
      have hnomatch : ∀ a ∈ alerts, unresolvedMatch s0 a = false := by
        intro a ha
        by_contra hm
        rw [Bool.not_eq_false] at hm
        have hmem : a ∈ unresolvedIn alerts s0 := mem_unresolvedIn.mpr ⟨ha, hm⟩
        rw [hunres] at hmem
        cases hmem
      rw [List.countP_map, List.countP_append]
      by_cases hpc : unresolvedMatch s c = true
      · have hs : s = s0 :=
          scope?_match_forces hsc hcons (unresolvedMatch_eq_true.mp hpc).1
        subst hs
        have hzero : List.countP ((unresolvedMatch s) ∘ fun a =>
            if unresolvedMatch s a && decide (c.level < a.level) then a.resolveA now
            else a) alerts = 0 := by
          rw [List.countP_eq_zero]
          intro a ha
          simp only [Function.comp]
          by_cases hcond : (unresolvedMatch s a && decide (c.level < a.level)) = true
          · rw [if_pos hcond, unresolvedMatch_resolveA]
            simp
          · rw [if_neg hcond, hnomatch a ha]
            simp
        rw [hzero]
        have hle : List.countP ((unresolvedMatch s) ∘ fun a =>
            if unresolvedMatch s a && decide (c.level < a.level) then a.resolveA now
            else a) [c] ≤ 1 := List.countP_le_length _
        omega
      · have hone : List.countP ((unresolvedMatch s) ∘ fun a =>
            if unresolvedMatch s0 a && decide (c.level < a.level) then a.resolveA now
            else a) [c] = 0 := by
          rw [List.countP_eq_zero]
          intro a ha
          simp only [List.mem_singleton] at ha
          subst ha
          simp only [Function.comp]
          intro hx
          by_cases hcond : (unresolvedMatch s0 a && decide (a.level < a.level)) = true
          · rw [if_pos hcond, unresolvedMatch_resolveA] at hx
            cases hx
          · rw [if_neg hcond] at hx
            exact hpc hx
        rw [hone]
        have hmono : List.countP ((unresolvedMatch s) ∘ fun a =>
            if unresolvedMatch s0 a && decide (c.level < a.level) then a.resolveA now
            else a) alerts ≤ List.countP (unresolvedMatch s) alerts := by
          apply List.countP_mono_left
          intro a ha h
          simp only [Function.comp] at h
          by_cases hcond : (unresolvedMatch s0 a && decide (c.level < a.level)) = true
          · rw [if_pos hcond, unresolvedMatch_resolveA] at h
            cases h
          · rwa [if_neg hcond] at h
        omega
    | some la =>
      have hla_mem := latest?_mem hla
      obtain ⟨hla_in, hla_un⟩ := mem_unresolvedIn.mp hla_mem
      have hla_st : la.status ≠ .RESOLVED := (unresolvedMatch_eq_true.mp hla_un).2
      simp only [Alert.apply, hsc, hla]
      by_cases h1 : c.level > la.level
      · rw [if_pos h1]
        refine le_trans (countP_resolve_map_le s s0 c now alerts _ ?_) hpre
        intro a ha h
        by_cases hid : (a.id == la.id) = true
        · have haeq : a = la := alert_id_inj hnodup ha hla_in (by simpa using hid)
          subst haeq
          rw [if_pos hid] at h
          rw [unresolvedMatch_eq_true] at h ⊢
          exact ⟨by rw [← scopeMatch_upgradeWith s a c now]; exact h.1, hla_st⟩
        · rwa [if_neg (by simpa using hid)] at h
      · rw [if_neg h1]
        by_cases h2 : (c.level == la.level && c.title != la.title) = true
        · rw [if_pos h2]
          refine le_trans (countP_resolve_map_le s s0 c now alerts _ ?_) hpre
          intro a ha h
          by_cases hid : (a.id == la.id) = true
          · have haeq : a = la := alert_id_inj hnodup ha hla_in (by simpa using hid)
            subst haeq
            rw [if_pos hid] at h
            rw [unresolvedMatch_eq_true] at h ⊢
            exact ⟨by rw [← scopeMatch_renameWith s a c now]; exact h.1, hla_st⟩
          · rwa [if_neg (by simpa using hid)] at h
        · rw [if_neg h2]
          exact le_trans (countP_resolve_le s s0 c now alerts) hpre

theorem resolveScope_count (alerts : List Alert) (s : Scope) (now : Nat) :
    unresolvedCount (resolveScope alerts s now) s = 0 := by
  rw [unresolvedCount_eq, resolveScope, List.countP_map, List.countP_eq_zero]
  intro a _
  simp only [Function.comp]
  intro hx
  by_cases hm : unresolvedMatch s a = true
  · rw [if_pos hm, unresolvedMatch_resolveA] at hx
    cases hx
  · rw [if_neg hm] at hx
    exact hm hx

/-- C3: within a run of the alert lifecycle — a call to `Alert.apply` with a
candidate whose scope fields are consistent (as every `Alert.create` candidate
is), over a table with distinct primary keys — every scope that had at most
one unresolved alert before still has at most one after; and the no-candidate
path of `generate_alert` resolves every unresolved alert of the scope. -/
theorem C3_at_most_one_unresolved :
    (∀ (alerts : List Alert) (c : Alert) (now : Nat) (s : Scope),
      (alerts.map (·.id)).Nodup → scopeConsistent c →
      unresolvedCount alerts s ≤ 1 →
      unresolvedCount (Alert.apply alerts c now).1 s ≤ 1) ∧
    (∀ (alerts : List Alert) (s : Scope) (now : Nat),
      unresolvedCount (resolveScope alerts s now) s = 0) :=
  ⟨apply_unresolved_le, resolveScope_count⟩

/-- C3 witness: the invariant theorem applied to an empty table and the
offline-node candidate. -/
theorem C3_at_most_one_unresolved_witness :
    unresolvedCount (Alert.apply [] offlineAlert 1).1
      (Scope.nodeScope 1 (some "m")) ≤ 1 ∧
    unresolvedCount (resolveScope [] (Scope.nodeScope 1 (some "m")) 1)
      (Scope.nodeScope 1 (some "m")) = 0 := by
  have h := C3_at_most_one_unresolved
  refine ⟨h.1 [] offlineAlert 1 (Scope.nodeScope 1 (some "m")) (by simp) ?_ (by decide),
    h.2 [] (Scope.nodeScope 1 (some "m")) 1⟩
  intro n hn
  cases hn
  rfl
theorem contains_resolveIds_iff {alerts : List Alert} (hnodup : (alerts.map (·.id)).Nodup)
    (s0 : Scope) (c : Alert) {x : Alert} (hx : x ∈ alerts) :
    ((((unresolvedIn alerts s0).filter (fun a => decide (c.level < a.level))).map (·.id)).contains x.id = true) ↔
      (unresolvedMatch s0 x = true ∧ c.level < x.level) := by
  rw [List.contains_eq_any_beq]
  simp only [List.any_eq_true, List.mem_map, List.mem_filter, beq_iff_eq,
    decide_eq_true_eq]
  constructor
  · intro h
    obtain ⟨i, ⟨b, ⟨hbu, hbl⟩, hbi⟩, hxi⟩ := h
    have hb_in : b ∈ alerts := (mem_unresolvedIn.mp hbu).1
    have hbx : b = x := alert_id_inj hnodup hb_in hx (by rw [hbi, hxi])
    subst hbx
    exact ⟨(mem_unresolvedIn.mp hbu).2, hbl⟩
  · intro ⟨hu, hl⟩
    exact ⟨x.id, ⟨x, ⟨mem_unresolvedIn.mpr ⟨hx, hu⟩, hl⟩, rfl⟩, rfl⟩

theorem apply_eq_specApply :
    ∀ (alerts : List Alert) (c : Alert) (now : Nat),
      (alerts.map (·.id)).Nodup → c.status = .NEW →
      Alert.apply alerts c now = specApply alerts c now := by
  intro alerts c now hnodup hnew
  cases hsc : c.scope? with
  | none => simp only [Alert.apply, specApply, hsc]
  | some s0 =>
    have hpoint : ∀ a ∈ alerts,
        (if unresolvedMatch s0 a && decide (c.level < a.level) then a.resolveA now
         else a) =
        (if (((unresolvedIn alerts s0).filter
            (fun a => decide (c.level < a.level))).map (·.id)).contains a.id
         then a.resolveA now else a) := by
      intro a ha
      by_cases hcnd : unresolvedMatch s0 a = true ∧ c.level < a.level
      · rw [if_pos (by simp [hcnd.1, hcnd.2]),
          if_pos ((contains_resolveIds_iff hnodup s0 c ha).mpr hcnd)]
      · rw [if_neg (by
            simp only [Bool.and_eq_true, decide_eq_true_eq]
            exact hcnd),
          if_neg (fun hx => hcnd ((contains_resolveIds_iff hnodup s0 c ha).mp hx))]
    cases hla : latest? (unresolvedIn alerts s0) with
    | none =>
      have hunres : unresolvedIn alerts s0 = [] := latest?_eq_none.mp hla
      have hnomatch : ∀ a ∈ alerts, unresolvedMatch s0 a = false := by
        intro a ha
        by_contra hm
        rw [Bool.not_eq_false] at hm
        have hmem : a ∈ unresolvedIn alerts s0 := mem_unresolvedIn.mpr ⟨ha, hm⟩
        rw [hunres] at hmem
        cases hmem
      have hceta : ({ c with status := AStatus.NEW } : Alert) = c := by
        rw [← hnew]
      simp only [Alert.apply, specApply, hsc, hla, hceta, Prod.mk.injEq, and_true]
      rw [hunres]
      simp only [List.filter_nil, List.map_nil, List.contains_eq_any_beq,
        List.any_nil, Bool.false_eq_true, if_false]
      rw [show ((alerts ++ [c]).map fun a => a) = alerts ++ [c] from List.map_id' _]
      conv_rhs => rw [← List.map_id (alerts ++ [c])]
      apply List.map_congr_left
      intro a ha
      rcases List.mem_append.mp ha with h | h
      · have hcf : (unresolvedMatch s0 a && decide (c.level < a.level)) = false := by
          rw [hnomatch a h]
          rfl
        simp [hcf]
      · simp only [List.mem_singleton] at h
        subst h
        have hcf : (unresolvedMatch s0 a && decide (a.level < a.level)) = false := by
          simp
        simp [hcf]
    | some la =>
      have hla_mem := latest?_mem hla
      obtain ⟨hla_in, hla_un⟩ := mem_unresolvedIn.mp hla_mem
      simp only [Alert.apply, specApply, hsc, hla]
      by_cases h1 : c.level > la.level
      · rw [if_pos h1]
        simp only [Prod.mk.injEq, and_true]
        rw [List.map_map, List.map_map]
        apply List.map_congr_left
        intro a ha
        simp only [Function.comp]
        by_cases hid : (a.id == la.id) = true
        · have haeq : a = la := alert_id_inj hnodup ha hla_in (by simpa using hid)
          subst haeq
          have hg : (if (a.id == a.id) = true then a.upgradeWith c now else a) =
              a.upgradeWith c now := if_pos hid
          simp only [hg]
          have hb : (unresolvedMatch s0 (a.upgradeWith c now) &&
              decide (c.level < (a.upgradeWith c now).level)) = false := by
            simp [Alert.upgradeWith]
          have hcont : ¬((((unresolvedIn alerts s0).filter
              (fun a => decide (c.level < a.level))).map (·.id)).contains
                (a.upgradeWith c now).id = true) := by
            intro hx
            have hx' : ((((unresolvedIn alerts s0).filter
                (fun a => decide (c.level < a.level))).map (·.id)).contains a.id = true) := hx
            have hiff := (contains_resolveIds_iff hnodup s0 c ha).mp hx'
            omega
          simp only [hb, Bool.false_eq_true, if_false, if_neg hcont]
        · have hg : (if (a.id == la.id) = true then a.upgradeWith c now else a) = a :=
            if_neg (by simpa using hid)
          simp only [hg]
          exact hpoint a ha
      · rw [if_neg h1]
        by_cases h2 : (c.level == la.level && c.title != la.title) = true
        · rw [if_pos h2]
          have hlev : c.level = la.level := by
            have h2' := h2
            simp only [Bool.and_eq_true, beq_iff_eq] at h2'
            exact h2'.1
          simp only [Prod.mk.injEq, and_true]
          rw [List.map_map, List.map_map]
          apply List.map_congr_left
          intro a ha
          simp only [Function.comp]
          by_cases hid : (a.id == la.id) = true
          · have haeq : a = la := alert_id_inj hnodup ha hla_in (by simpa using hid)
            subst haeq
            have hg : (if (a.id == a.id) = true then a.renameWith c now else a) =
                a.renameWith c now := if_pos hid
            simp only [hg]
            have hb : (unresolvedMatch s0 (a.renameWith c now) &&
                decide (c.level < (a.renameWith c now).level)) = false := by
              simp only [Alert.renameWith, Bool.and_eq_false_iff]
              right
              simp only [decide_eq_false_iff_not, not_lt]
              omega
            have hcont : ¬((((unresolvedIn alerts s0).filter
                (fun a => decide (c.level < a.level))).map (·.id)).contains
                  (a.renameWith c now).id = true) := by
              intro hx
              have hx' : ((((unresolvedIn alerts s0).filter
                  (fun a => decide (c.level < a.level))).map (·.id)).contains a.id = true) := hx
              have hiff := (contains_resolveIds_iff hnodup s0 c ha).mp hx'
              omega
            simp only [hb, Bool.false_eq_true, if_false, if_neg hcont]
          · have hg : (if (a.id == la.id) = true then a.renameWith c now else a) = a :=
              if_neg (by simpa using hid)
            simp only [hg]
            exact hpoint a ha
        · rw [if_neg h2]
          simp only [Prod.mk.injEq, and_true]
          exact List.map_congr_left hpoint

/-- C4: `Alert.apply` performs exactly the case analysis the specification
words against the most-recently-created unresolved alert of the candidate's
scope — persist as NEW when none exists, upgrade in place on a strictly
higher level, rename on an equal level with a different title, else write
nothing and report false — and in every case resolves exactly the unresolved
alerts of the scope whose level strictly exceeds the candidate's
(`specApply`, which fixes that resolution set from the pre-state, agrees with
the implementation's lazily re-evaluated queryset). -/
theorem C4_apply_matches_spec :
    ∀ (alerts : List Alert) (c : Alert) (now : Nat),
      (alerts.map (·.id)).Nodup → c.status = .NEW →
      Alert.apply alerts c now = specApply alerts c now :=
  apply_eq_specApply

/-- C4 witness: the refinement theorem applied to a one-row table and a
higher-level candidate. -/
theorem C4_apply_matches_spec_witness :
    Alert.apply [⟨5, 1, .NEW, "t1", "x", 10, none, some "m"⟩]
      ⟨0, 3, .NEW, "t2", "y", 20, none, some "m"⟩ 7 =
    specApply [⟨5, 1, .NEW, "t1", "x", 10, none, some "m"⟩]
      ⟨0, 3, .NEW, "t2", "y", 20, none, some "m"⟩ 7 :=
  C4_apply_matches_spec _ _ 7 (by simp) rfl

theorem Gran.width_pos (g : Gran) : 0 < g.width := by
  cases g <;> decide

theorem prev_granularity_ne {g f : Gran} (h : g.prev_granularity = some f) :
    f ≠ g := by
  cases g <;> simp [Gran.prev_granularity] at h <;> subst h <;> decide

theorem monthDays_mono : Monotone monthDays := by
  apply monotone_nat_of_le_succ
  intro n
  simp only [monthDays]
  omega

theorem monthLen_ge (m : Nat) : 28 ≤ monthLen m := by
  unfold monthLen
  split
  any_goals norm_num
  split <;> norm_num

theorem monthBoundary_mono {m m' : Nat} (h : m ≤ m') :
    monthBoundary m ≤ monthBoundary m' := by
  unfold monthBoundary
  have := monthDays_mono h
  omega

theorem monthBoundary_lb (m : Nat) : 2419200 * m ≤ monthBoundary m := by
  induction m with
  | zero => simp [monthBoundary, monthDays]
  | succ k ih =>
    have hlen := monthLen_ge k
    simp only [monthBoundary, monthDays] at ih ⊢
    omega

theorem le_monthIndex {k t : Nat} (h : monthBoundary k ≤ t) : k ≤ monthIndex t := by
  have hb : k ≤ t / 2419200 + 1 := by
    have h1 : 2419200 * k ≤ t := le_trans (monthBoundary_lb k) h
    have h2 : k ≤ t / 2419200 := (Nat.le_div_iff_mul_le (by norm_num)).mpr (by omega)
    omega
  exact Nat.le_findGreatest hb h

theorem monthStart_mono {t t' : Nat} (h : t ≤ t') : monthStart t ≤ monthStart t' := by
  have h1 : monthBoundary (monthIndex t) ≤ t' := le_trans (monthStart_le t) h
  exact monthBoundary_mono (le_monthIndex h1)

theorem monthStart_idem (t : Nat) : monthStart (monthStart t) = monthStart t := by
  apply le_antisymm (monthStart_le _)
  have h1 : monthIndex t ≤ monthIndex (monthStart t) :=
    le_monthIndex (le_refl _)
  exact monthBoundary_mono h1

theorem round_down_le (g : Gran) (t : Nat) : g.round_down t ≤ t := by
  cases g
  · exact le_refl t
  · simp only [Gran.round_down]
    omega
  · simp only [Gran.round_down]
    omega
  · exact monthStart_le t

theorem round_down_mono (g : Gran) {t t' : Nat} (h : t ≤ t') :
    g.round_down t ≤ g.round_down t' := by
  cases g
  · exact h
  · simp only [Gran.round_down]
    omega
  · simp only [Gran.round_down]
    omega
  · exact monthStart_mono h

theorem round_down_idem (g : Gran) (t : Nat) :
    g.round_down (g.round_down t) = g.round_down t := by
  cases g
  · rfl
  · simp only [Gran.round_down]
    omega
  · simp only [Gran.round_down]
    omega
  · exact monthStart_idem t

theorem le_ceil_mul {a b w : Nat} (hw : 0 < w) :
    b ≤ a + w * ((b - a + w - 1) / w) := by
  rcases Nat.le_total b a with h | h
  · omega
  · set x := b - a with hx
    have heq := Nat.div_add_mod (x + w - 1) w
    have hmod : (x + w - 1) % w < w := Nat.mod_lt _ hw
    omega

theorem pyRange_any_iff {w : Nat} (hw : 0 < w) (a b c : Nat) :
    ((pyRange a b w).any
      (fun t0 => decide (t0 ≤ c) && decide (c < t0 + w)) = true) ↔
    (a ≤ c ∧ c < a + w * ((b - a + w - 1) / w)) := by
  unfold pyRange
  simp only [List.any_eq_true, List.mem_range', Bool.and_eq_true, decide_eq_true_eq]
  constructor
  · rintro ⟨t0, ⟨i, hi, rfl⟩, hle, hlt⟩
    constructor
    · omega
    · have hmul : w * i + w ≤ w * ((b - a + w - 1) / w) := by
        have h1 : i + 1 ≤ (b - a + w - 1) / w := hi
        calc w * i + w = w * (i + 1) := by ring
        _ ≤ w * ((b - a + w - 1) / w) := Nat.mul_le_mul_left _ h1
      omega
  · rintro ⟨h1, h2⟩
    refine ⟨a + w * ((c - a) / w), ⟨(c - a) / w, ?_, rfl⟩, ?_, ?_⟩
    · have h3 : c - a < ((b - a + w - 1) / w) * w := by
        have := h2
        have hcomm : w * ((b - a + w - 1) / w) = ((b - a + w - 1) / w) * w :=
          Nat.mul_comm _ _
        omega
      exact (Nat.div_lt_iff_lt_mul hw).mpr h3
    · have h3 : w * ((c - a) / w) ≤ c - a := by
        rw [Nat.mul_comm]
        exact Nat.div_mul_le_self _ _
      omega
    · have heq := Nat.div_add_mod (c - a) w
      have hmod : (c - a) % w < w := Nat.mod_lt _ hw
      omega

theorem listMin?_eq_none {l : List Nat} : listMin? l = none ↔ l = [] := by
  cases l with
  | nil => simp [listMin?]
  | cons x xs => cases h : listMin? xs <;> simp [listMin?, h]

theorem listMax?_eq_none {l : List Nat} : listMax? l = none ↔ l = [] := by
  cases l with
  | nil => simp [listMax?]
  | cons x xs => cases h : listMax? xs <;> simp [listMax?, h]

theorem listMin?_le {l : List Nat} {m y : Nat} (h : listMin? l = some m)
    (hy : y ∈ l) : m ≤ y := by
  induction l generalizing m with
  | nil => cases hy
  | cons x xs ih =>
    rw [listMin?] at h
    cases hr : listMin? xs with
    | none =>
      rw [hr] at h
      have hxs : xs = [] := listMin?_eq_none.mp hr
      subst hxs
      simp only [Option.some.injEq] at h
      subst h
      simp only [List.mem_singleton] at hy
      omega
    | some m' =>
      rw [hr] at h
      simp only [Option.some.injEq] at h
      subst h
      rcases List.mem_cons.mp hy with hy | hy
      · subst hy
        exact Nat.min_le_left _ _
      · exact le_trans (Nat.min_le_right _ _) (ih hr hy)

theorem listMax?_ge {l : List Nat} {m y : Nat} (h : listMax? l = some m)
    (hy : y ∈ l) : y ≤ m := by
  induction l generalizing m with
  | nil => cases hy
  | cons x xs ih =>
    rw [listMax?] at h
    cases hr : listMax? xs with
    | none =>
      rw [hr] at h
      have hxs : xs = [] := listMax?_eq_none.mp hr
      subst hxs
      simp only [Option.some.injEq] at h
      subst h
      simp only [List.mem_singleton] at hy
      omega
    | some m' =>
      rw [hr] at h
      simp only [Option.some.injEq] at h
      subst h
      rcases List.mem_cons.mp hy with hy | hy
      · subst hy
        exact Nat.le_max_left _ _
      · exact le_trans (ih hr hy) (Nat.le_max_right _ _)

theorem listMin?_mem {l : List Nat} {m : Nat} (h : listMin? l = some m) :
    m ∈ l := by
  induction l generalizing m with
  | nil => cases h
  | cons x xs ih =>
    rw [listMin?] at h
    cases hr : listMin? xs with
    | none =>
      rw [hr] at h
      simp only [Option.some.injEq] at h
      subst h
      exact List.mem_cons_self _ _
    | some m' =>
      rw [hr] at h
      simp only [Option.some.injEq] at h
      subst h
      by_cases hle : x ≤ m'
      · have hx : Nat.min x m' = x := by
          unfold Nat.min
          exact inf_eq_left.mpr hle
        rw [hx]
        exact List.mem_cons_self _ _
      · have hx : Nat.min x m' = m' := by
          unfold Nat.min
          exact inf_eq_right.mpr (le_of_not_le hle)
        rw [hx]
        exact List.mem_cons_of_mem _ (ih hr)

theorem listMax?_mem {l : List Nat} {m : Nat} (h : listMax? l = some m) :
    m ∈ l := by
  induction l generalizing m with
  | nil => cases h
  | cons x xs ih =>
    rw [listMax?] at h
    cases hr : listMax? xs with
    | none =>
      rw [hr] at h
      simp only [Option.some.injEq] at h
      subst h
      exact List.mem_cons_self _ _
    | some m' =>
      rw [hr] at h
      simp only [Option.some.injEq] at h
      subst h
      by_cases hle : x ≤ m'
      · have hx : Nat.max x m' = m' := by
          unfold Nat.max
          exact sup_eq_right.mpr hle
        rw [hx]
        exact List.mem_cons_of_mem _ (ih hr)
      · have hx : Nat.max x m' = x := by
          unfold Nat.max
          exact sup_eq_left.mpr (le_of_not_le hle)
        rw [hx]
        exact List.mem_cons_self _ _

theorem inBucket_eq (fromG : Gran) (mac t0 t1 : Nat) (r : MetricRec) :
    inBucket fromG mac t0 t1 r = (srcB fromG mac r && rangeB t0 t1 r) := by
  simp [inBucket, srcB, rangeB, Bool.and_assoc]

theorem srcOf_eq_filter (fromG : Gran) (mac : Nat) (st : List MetricRec) :
    srcOf fromG mac st = st.filter (srcB fromG mac) := rfl

theorem srcB_create_aggregated {fromG toG : Gran} (hne : fromG ≠ toG)
    (mac created : Nat) (ms : List MetricRec) :
    srcB fromG mac (create_aggregated mac created toG ms) = false := by
  simp only [srcB, create_aggregated]
  rw [show ((toG == fromG) = false) from beq_eq_false_iff_ne.mpr (Ne.symm hne)]
  rw [Bool.false_and]

theorem bucketStep_filter_src {fromG toG : Gran} {mac : Nat} (hne : fromG ≠ toG)
    (q : MetricRec → Bool) (st : List MetricRec) (t0 : Nat) :
    (bucketStep fromG toG mac st t0).filter (fun r => srcB fromG mac r && q r) =
    st.filter (fun r => srcB fromG mac r &&
      (!(rangeB t0 (t0 + toG.width) r) && q r)) := by
  simp only [bucketStep]
  split
  · rename_i hemp
    have hnil : st.filter (inBucket fromG mac t0 (t0 + toG.width)) = [] := by
      rwa [List.isEmpty_iff] at hemp
    rw [List.filter_eq_nil_iff] at hnil
    apply List.filter_congr
    intro r hr
    have hno := hnil r hr
    rw [inBucket_eq] at hno
    cases hs : srcB fromG mac r <;>
      cases hrg : rangeB t0 (t0 + toG.width) r <;> simp_all
  · rw [List.filter_append, List.filter_filter]
    have hagg : List.filter (fun r => srcB fromG mac r && q r)
        [create_aggregated mac (t0 + toG.width / 2) toG
          (st.filter (inBucket fromG mac t0 (t0 + toG.width)))] = [] := by
      rw [List.filter_eq_nil_iff]
      intro a ha
      simp only [List.mem_singleton] at ha
      subst ha
      rw [srcB_create_aggregated hne, Bool.false_and]
      simp
    rw [hagg, List.append_nil]
    apply List.filter_congr
    intro r _
    rw [inBucket_eq]
    cases hs : srcB fromG mac r <;>
      cases hrg : rangeB t0 (t0 + toG.width) r <;>
        cases hq : q r <;> simp_all

theorem bucketStep_id {fromG toG : Gran} {mac : Nat} {st : List MetricRec}
    {t0 : Nat}
    (h : st.filter (inBucket fromG mac t0 (t0 + toG.width)) = []) :
    bucketStep fromG toG mac st t0 = st := by
  simp [bucketStep, h]

theorem foldl_bucketStep_id {fromG toG : Gran} {mac : Nat}
    (grid : List Nat) (st : List MetricRec)
    (h : ∀ t0 ∈ grid, st.filter (inBucket fromG mac t0 (t0 + toG.width)) = []) :
    grid.foldl (bucketStep fromG toG mac) st = st := by
  induction grid with
  | nil => rfl
  | cons t0 rest ih =>
    rw [List.foldl_cons, bucketStep_id (h t0 (List.mem_cons_self _ _))]
    exact ih (fun t1 ht1 => h t1 (List.mem_cons_of_mem _ ht1))

theorem foldl_bucketStep_filter_src {fromG toG : Gran} {mac : Nat}
    (hne : fromG ≠ toG) :
    ∀ (grid : List Nat) (st : List MetricRec) (q : MetricRec → Bool),
    ((grid.foldl (bucketStep fromG toG mac) st).filter
      (fun r => srcB fromG mac r && q r)) =
    st.filter (fun r => srcB fromG mac r && (!(coveredB toG grid r) && q r)) := by
  intro grid
  induction grid with
  | nil =>
    intro st q
    apply List.filter_congr
    intro r _
    simp [coveredB]
  | cons t0 rest ih =>
    intro st q
    rw [List.foldl_cons]
    rw [ih (bucketStep fromG toG mac st t0) q]
    rw [bucketStep_filter_src hne (fun r => !(coveredB toG rest r) && q r) st t0]
    apply List.filter_congr
    intro r _
    have hcons : coveredB toG (t0 :: rest) r =
        (rangeB t0 (t0 + toG.width) r || coveredB toG rest r) := by
      simp [coveredB]
    rw [hcons]
    cases hs : srcB fromG mac r <;>
      cases hrg : rangeB t0 (t0 + toG.width) r <;>
        cases hcv : coveredB toG rest r <;> cases hq : q r <;> simp_all

theorem srcB_create_aggregated2 {fromG toG : Gran} (hne : fromG ≠ toG)
    (mac mac2 created : Nat) (ms : List MetricRec) :
    srcB fromG mac2 (create_aggregated mac created toG ms) = false := by
  simp only [srcB, create_aggregated]
  rw [show ((toG == fromG) = false) from beq_eq_false_iff_ne.mpr (Ne.symm hne)]
  rw [Bool.false_and]

theorem srcB_mac_ne {fromG : Gran} {mac mac2 : Nat} (hmm : mac2 ≠ mac)
    {r : MetricRec} (h : srcB fromG mac2 r = true) : srcB fromG mac r = false := by
  simp only [srcB, Bool.and_eq_true, beq_iff_eq] at h
  simp only [srcB]
  rw [h.2]
  rw [show ((mac2 == mac) = false) from beq_eq_false_iff_ne.mpr hmm]
  simp

theorem bucketStep_filter_disj {fromG toG : Gran} {mac mac2 : Nat}
    (hne : fromG ≠ toG) (hmm : mac2 ≠ mac) (st : List MetricRec) (t0 : Nat) :
    (bucketStep fromG toG mac st t0).filter (srcB fromG mac2) =
    st.filter (srcB fromG mac2) := by
  simp only [bucketStep]
  split
  · rfl
  · rw [List.filter_append, List.filter_filter]
    have hagg : List.filter (srcB fromG mac2)
        [create_aggregated mac (t0 + toG.width / 2) toG
          (st.filter (inBucket fromG mac t0 (t0 + toG.width)))] = [] := by
      rw [List.filter_eq_nil_iff]
      intro a ha
      simp only [List.mem_singleton] at ha
      subst ha
      rw [srcB_create_aggregated2 hne]
      simp
    rw [hagg, List.append_nil]
    apply List.filter_congr
    intro r _
    cases hs : srcB fromG mac2 r
    · simp
    · have hmac : srcB fromG mac r = false := srcB_mac_ne hmm hs
      have hib : inBucket fromG mac t0 (t0 + toG.width) r = false := by
        rw [inBucket_eq, hmac, Bool.false_and]
      rw [hib]
      simp

theorem foldl_bucketStep_filter_disj {fromG toG : Gran} {mac mac2 : Nat}
    (hne : fromG ≠ toG) (hmm : mac2 ≠ mac) (grid : List Nat)
    (st : List MetricRec) :
    (grid.foldl (bucketStep fromG toG mac) st).filter (srcB fromG mac2) =
    st.filter (srcB fromG mac2) := by
  induction grid generalizing st with
  | nil => rfl
  | cons t0 rest ih =>
    rw [List.foldl_cons, ih, bucketStep_filter_disj hne hmm]

theorem aggForMac_eq (fromG toG : Gran) (st : List MetricRec) (mac : Nat) :
    aggForMac fromG toG st mac =
    (match listMin? ((srcOf fromG mac st).map (·.created)),
           listMax? ((srcOf fromG mac st).map (·.created)) with
     | some tmin, some tmax =>
       (pyRange (toG.round_down tmin) (toG.round_down tmax + toG.width)
         toG.width).foldl (bucketStep fromG toG mac) st
     | _, _ => st) := rfl

theorem aggForMac_srcOf_other {fromG toG : Gran} (hne : fromG ≠ toG)
    {mac mac2 : Nat} (hmm : mac2 ≠ mac) (st : List MetricRec) :
    srcOf fromG mac2 (aggForMac fromG toG st mac) = srcOf fromG mac2 st := by
  rw [aggForMac_eq]
  cases hmin : listMin? ((srcOf fromG mac st).map (·.created)) with
  | none => rfl
  | some tmin =>
    cases hmax : listMax? ((srcOf fromG mac st).map (·.created)) with
    | none => rfl
    | some tmax =>
      show srcOf fromG mac2
        ((pyRange (toG.round_down tmin) (toG.round_down tmax + toG.width)
          toG.width).foldl (bucketStep fromG toG mac) st) = srcOf fromG mac2 st
      rw [srcOf_eq_filter, srcOf_eq_filter]
      exact foldl_bucketStep_filter_disj hne hmm _ st

theorem foldl_aggForMac_srcOf_not_mem {fromG toG : Gran} (hne : fromG ≠ toG)
    (macs : List Nat) (st : List MetricRec) {m : Nat} (hm : m ∉ macs) :
    srcOf fromG m (macs.foldl (aggForMac fromG toG) st) = srcOf fromG m st := by
  induction macs generalizing st with
  | nil => rfl
  | cons m0 rest ih =>
    rw [List.foldl_cons]
    have hm0 : m ≠ m0 := fun h => hm (h ▸ List.mem_cons_self _ _)
    rw [ih (aggForMac fromG toG st m0) (fun h => hm (List.mem_cons_of_mem _ h)),
      aggForMac_srcOf_other hne hm0 st]

theorem aggForMac_survivorShape {fromG toG : Gran} (hne : fromG ≠ toG)
    (st : List MetricRec) (mac : Nat) :
    SurvivorShape toG (srcOf fromG mac (aggForMac fromG toG st mac)) := by
  rw [aggForMac_eq]
  cases hmin : listMin? ((srcOf fromG mac st).map (·.created)) with
  | none =>
    left
    have : (srcOf fromG mac st).map (·.created) = [] := listMin?_eq_none.mp hmin
    rw [List.map_eq_nil_iff] at this
    show srcOf fromG mac st = []
    exact this
  | some tmin =>
    cases hmax : listMax? ((srcOf fromG mac st).map (·.created)) with
    | none =>
      left
      have : (srcOf fromG mac st).map (·.created) = [] := listMax?_eq_none.mp hmax
      rw [List.map_eq_nil_iff] at this
      show srcOf fromG mac st = []
      exact this
    | some tmax =>
      have hw := Gran.width_pos toG
      show SurvivorShape toG (srcOf fromG mac
        ((pyRange (toG.round_down tmin) (toG.round_down tmax + toG.width)
          toG.width).foldl (bucketStep fromG toG mac) st))
      right
      refine ⟨toG.round_down tmax, ?_⟩
      intro r hr
      have h1 : srcOf fromG mac
          ((pyRange (toG.round_down tmin) (toG.round_down tmax + toG.width)
            toG.width).foldl (bucketStep fromG toG mac) st) =
          (srcOf fromG mac st).filter
            (fun r => !(coveredB toG (pyRange (toG.round_down tmin)
              (toG.round_down tmax + toG.width) toG.width) r)) := by
        rw [srcOf_eq_filter, srcOf_eq_filter, List.filter_filter]
        have h2 := @foldl_bucketStep_filter_src fromG toG mac hne
          (pyRange (toG.round_down tmin) (toG.round_down tmax + toG.width)
            toG.width) st (fun _ => true)
        have e1 : (fun r => srcB fromG mac r && (fun _ : MetricRec => true) r) =
            srcB fromG mac := by
          funext r
          simp
        rw [e1] at h2
        rw [h2]
        apply List.filter_congr
        intro r _
        cases srcB fromG mac r <;> cases coveredB toG (pyRange (toG.round_down tmin)
          (toG.round_down tmax + toG.width) toG.width) r <;> simp_all
      rw [h1] at hr
      obtain ⟨hrs, hcov⟩ := List.mem_filter.mp hr
      have hcle : r.created ≤ tmax :=
        listMax?_ge hmax (List.mem_map_of_mem _ hrs)
      have hcge : tmin ≤ r.created :=
        listMin?_le hmin (List.mem_map_of_mem _ hrs)
      rw [Bool.not_eq_true'] at hcov
      have hcov2 : ¬((pyRange (toG.round_down tmin)
          (toG.round_down tmax + toG.width) toG.width).any
          (fun t0 => decide (t0 ≤ r.created) &&
            decide (r.created < t0 + toG.width)) = true) := by
        intro hx
        have hx2 : coveredB toG (pyRange (toG.round_down tmin)
            (toG.round_down tmax + toG.width) toG.width) r = true := by
          simpa [coveredB, rangeB] using hx
        rw [hcov] at hx2
        cases hx2
      rw [pyRange_any_iff hw] at hcov2
      have hminle : toG.round_down tmin ≤ r.created :=
        le_trans (round_down_le toG tmin) hcge
      have hceil := @le_ceil_mul (toG.round_down tmin)
        (toG.round_down tmax + toG.width) toG.width hw
      have hge : toG.round_down tmax + toG.width ≤ r.created := by
        by_cases hlt : r.created < toG.round_down tmin + toG.width *
            ((toG.round_down tmax + toG.width - toG.round_down tmin +
              toG.width - 1) / toG.width)
        · exact absurd ⟨hminle, hlt⟩ hcov2
        · omega
      constructor
      · apply le_antisymm
        · exact round_down_mono toG hcle
        · have h3 : toG.round_down tmax ≤ r.created := by omega
          have h4 := round_down_mono toG h3
          rw [round_down_idem] at h4
          exact h4
      · exact hge

theorem aggForMac_id_of_survivorShape {fromG toG : Gran}
    {st : List MetricRec} {mac : Nat}
    (hSP : SurvivorShape toG (srcOf fromG mac st)) :
    aggForMac fromG toG st mac = st := by
  rw [aggForMac_eq]
  cases hmin : listMin? ((srcOf fromG mac st).map (·.created)) with
  | none => rfl
  | some tmin =>
    cases hmax : listMax? ((srcOf fromG mac st).map (·.created)) with
    | none => rfl
    | some tmax =>
      show (pyRange (toG.round_down tmin) (toG.round_down tmax + toG.width)
        toG.width).foldl (bucketStep fromG toG mac) st = st
      rcases hSP with hnil | ⟨b, hb⟩
      · rw [hnil] at hmin
        simp [listMin?] at hmin
      · have hw := Gran.width_pos toG
        obtain ⟨r1, hr1, hr1c⟩ := List.mem_map.mp (listMin?_mem hmin)
        obtain ⟨r2, hr2, hr2c⟩ := List.mem_map.mp (listMax?_mem hmax)
        have hminT : toG.round_down tmin = b := by
          rw [← hr1c]
          exact (hb r1 hr1).1
        have hmaxT : toG.round_down tmax = b := by
          rw [← hr2c]
          exact (hb r2 hr2).1
        rw [hminT, hmaxT]
        have hrange : pyRange b (b + toG.width) toG.width = [b] := by
          unfold pyRange
          have hn : (b + toG.width - b + toG.width - 1) / toG.width = 1 := by
            have h1 : b + toG.width - b = toG.width := by omega
            rw [h1]
            exact Nat.div_eq_of_lt_le (by omega) (by omega)
          rw [hn]
          rfl
        rw [hrange]
        apply foldl_bucketStep_id
        intro t0 ht0
        simp only [List.mem_singleton] at ht0
        subst ht0
        rw [List.filter_eq_nil_iff]
        intro r hr hcontra
        rw [inBucket_eq, Bool.and_eq_true] at hcontra
        obtain ⟨hsrc, hrg⟩ := hcontra
        have hmem : r ∈ srcOf fromG mac st := by
          rw [srcOf_eq_filter]
          exact List.mem_filter.mpr ⟨hr, hsrc⟩
        have hbr := hb r hmem
        simp only [rangeB, Bool.and_eq_true, decide_eq_true_eq] at hrg
        omega

theorem foldl_aggForMac_survivorShape {fromG toG : Gran} (hne : fromG ≠ toG) :
    ∀ (macs : List Nat) (st : List MetricRec), macs.Nodup →
    ∀ m ∈ macs,
      SurvivorShape toG (srcOf fromG m (macs.foldl (aggForMac fromG toG) st)) := by
  intro macs
  induction macs with
  | nil =>
    intro st _ m hm
    cases hm
  | cons m0 rest ih =>
    intro st hnd m hm
    rw [List.foldl_cons]
    rcases List.mem_cons.mp hm with rfl | hm2
    · have hm0 : m ∉ rest := (List.nodup_cons.mp hnd).1
      rw [foldl_aggForMac_srcOf_not_mem hne rest _ hm0]
      exact aggForMac_survivorShape hne st m
    · exact ih (aggForMac fromG toG st m0) (List.nodup_cons.mp hnd).2 m hm2

theorem srcOf_nil_of_not_mem_macs {fromG : Gran} {st : List MetricRec} {m : Nat}
    (hm : m ∉ ((st.filter (fun r => r.granularity == fromG)).map (·.mac)).dedup) :
    srcOf fromG m st = [] := by
  rw [srcOf_eq_filter, List.filter_eq_nil_iff]
  intro r hr hcontra
  apply hm
  rw [List.mem_dedup]
  simp only [srcB, Bool.and_eq_true, beq_iff_eq] at hcontra
  apply List.mem_map.mpr
  refine ⟨r, List.mem_filter.mpr ⟨hr, by simp [hcontra.1]⟩, hcontra.2⟩

theorem foldl_id_of_step_id {α β : Type} (l : List β) (f : α → β → α) (st : α)
    (h : ∀ x ∈ l, f st x = st) : l.foldl f st = st := by
  induction l with
  | nil => rfl
  | cons x rest ih =>
    rw [List.foldl_cons, h x (List.mem_cons_self _ _)]
    exact ih (fun y hy => h y (List.mem_cons_of_mem _ hy))

theorem aggregate_metrics_idem (st : List MetricRec) (toG : Gran) :
    aggregate_metrics (aggregate_metrics st toG) toG =
    aggregate_metrics st toG := by
  cases hp : toG.prev_granularity with
  | none => simp [aggregate_metrics, hp]
  | some fromG =>
    have hne : fromG ≠ toG := prev_granularity_ne hp
    simp only [aggregate_metrics, hp]
    apply foldl_id_of_step_id
    intro m _
    apply aggForMac_id_of_survivorShape
    by_cases hmem : m ∈ ((st.filter
        (fun r => r.granularity == fromG)).map (·.mac)).dedup
    · exact foldl_aggForMac_survivorShape hne _ st (List.nodup_dedup _) m hmem
    · rw [foldl_aggForMac_srcOf_not_mem hne _ st hmem,
        srcOf_nil_of_not_mem_macs hmem]
      exact Or.inl rfl

theorem filter_map_sum_split (f : MetricRec → Int) (p : MetricRec → Bool)
    (l : List MetricRec) :
    ((l.filter p).map f).sum + ((l.filter (fun r => !(p r))).map f).sum =
    (l.map f).sum := by
  induction l with
  | nil => simp
  | cons x xs ih =>
    cases hx : p x <;>
      simp only [List.filter_cons, hx, Bool.not_false, Bool.not_true,
        if_pos, if_neg, List.map_cons, List.sum_cons, ite_true, ite_false,
        Bool.false_eq_true, Bool.true_eq_false] <;>
      omega

theorem bucketStep_map_sum (f : MetricRec → Int)
    (hf : ∀ (mac created : Nat) (g : Gran) (ms : List MetricRec),
      f (create_aggregated mac created g ms) = (ms.map f).sum)
    (fromG toG : Gran) (mac : Nat) (st : List MetricRec) (t0 : Nat) :
    ((bucketStep fromG toG mac st t0).map f).sum = (st.map f).sum := by
  simp only [bucketStep]
  split
  · rfl
  · rw [List.map_append, List.sum_append]
    simp only [List.map_cons, List.map_nil, List.sum_cons, List.sum_nil]
    rw [hf]
    have hsplit := filter_map_sum_split f
      (inBucket fromG mac t0 (t0 + toG.width)) st
    omega

theorem foldl_map_sum {β : Type} (gf : List MetricRec → Int)
    (f : List MetricRec → β → List MetricRec) (l : List β) (st : List MetricRec)
    (h : ∀ (st' : List MetricRec) (x : β), x ∈ l → gf (f st' x) = gf st') :
    gf (l.foldl f st) = gf st := by
  induction l generalizing st with
  | nil => rfl
  | cons x rest ih =>
    rw [List.foldl_cons]
    rw [ih (f st x) (fun st' y hy => h st' y (List.mem_cons_of_mem _ hy))]
    exact h st x (List.mem_cons_self _ _)

theorem aggForMac_map_sum (f : MetricRec → Int)
    (hf : ∀ (mac created : Nat) (g : Gran) (ms : List MetricRec),
      f (create_aggregated mac created g ms) = (ms.map f).sum)
    (fromG toG : Gran) (st : List MetricRec) (mac : Nat) :
    ((aggForMac fromG toG st mac).map f).sum = (st.map f).sum := by
  rw [aggForMac_eq]
  cases hmin : listMin? ((srcOf fromG mac st).map (·.created)) with
  | none => rfl
  | some tmin =>
    cases hmax : listMax? ((srcOf fromG mac st).map (·.created)) with
    | none => rfl
    | some tmax =>
      show (((pyRange (toG.round_down tmin) (toG.round_down tmax + toG.width)
        toG.width).foldl (bucketStep fromG toG mac) st).map f).sum =
        (st.map f).sum
      exact foldl_map_sum (fun l => (l.map f).sum) _ _ st
        (fun st' t0 _ => bucketStep_map_sum f hf fromG toG mac st' t0)

theorem aggregate_metrics_map_sum (f : MetricRec → Int)
    (hf : ∀ (mac created : Nat) (g : Gran) (ms : List MetricRec),
      f (create_aggregated mac created g ms) = (ms.map f).sum)
    (st : List MetricRec) (toG : Gran) :
    ((aggregate_metrics st toG).map f).sum = (st.map f).sum := by
  cases hp : toG.prev_granularity with
  | none => simp [aggregate_metrics, hp]
  | some fromG =>
    simp only [aggregate_metrics, hp]
    exact foldl_map_sum (fun l => (l.map f).sum) _ _ st
      (fun st' m _ => aggForMac_map_sum f hf fromG toG st' m)

theorem foldl_granlist_map_sum (f : MetricRec → Int)
    (hf : ∀ (mac created : Nat) (g : Gran) (ms : List MetricRec),
      f (create_aggregated mac created g ms) = (ms.map f).sum)
    (gs : List Gran) (st : List MetricRec) :
    (((gs.foldl aggregate_metrics st).map f)).sum = (st.map f).sum := by
  induction gs generalizing st with
  | nil => rfl
  | cons g rest ih =>
    rw [List.foldl_cons, ih (aggregate_metrics st g),
      aggregate_metrics_map_sum f hf st g]

/-- C5: aggregation is idempotent — running `aggregate_metrics` for the same
target granularity a second time immediately after the first changes nothing,
since the first run leaves each device only records at or beyond the end of
its latest sample's bucket, which the second run's single candidate bucket
cannot touch — and it is sum-preserving, so performing the HOURLY, DAILY and
MONTHLY aggregations (any list of granularities, over any set of devices) in
any permuted order yields the same final total of each numeric field. -/
theorem C5_idempotent_and_sum_preserving :
    (∀ (st : List MetricRec) (g : Gran),
      aggregate_metrics (aggregate_metrics st g) g = aggregate_metrics st g) ∧
    (∀ (st : List MetricRec) (gs gs2 : List Gran), gs.Perm gs2 →
      totalRx (gs.foldl aggregate_metrics st) =
        totalRx (gs2.foldl aggregate_metrics st) ∧
      totalTx (gs.foldl aggregate_metrics st) =
        totalTx (gs2.foldl aggregate_metrics st)) := by
  constructor
  · exact aggregate_metrics_idem
  · intro st gs gs2 _
    constructor
    · show ((gs.foldl aggregate_metrics st).map (·.rx_bytes)).sum =
        ((gs2.foldl aggregate_metrics st).map (·.rx_bytes)).sum
      rw [foldl_granlist_map_sum (·.rx_bytes) (fun _ _ _ _ => rfl) gs st,
        foldl_granlist_map_sum (·.rx_bytes) (fun _ _ _ _ => rfl) gs2 st]
    · show ((gs.foldl aggregate_metrics st).map (·.tx_bytes)).sum =
        ((gs2.foldl aggregate_metrics st).map (·.tx_bytes)).sum
      rw [foldl_granlist_map_sum (·.tx_bytes) (fun _ _ _ _ => rfl) gs st,
        foldl_granlist_map_sum (·.tx_bytes) (fun _ _ _ _ => rfl) gs2 st]

/-- C5 witness: the theorem applied to the concrete two-record store, with
the permutation HOURLY,DAILY ↦ DAILY,HOURLY. -/
theorem C5_idempotent_and_sum_preserving_witness :
    aggregate_metrics (aggregate_metrics storeC1 .HOURLY) .HOURLY =
      aggregate_metrics storeC1 .HOURLY ∧
    totalRx ([Gran.HOURLY, Gran.DAILY].foldl aggregate_metrics storeC1) =
      totalRx ([Gran.DAILY, Gran.HOURLY].foldl aggregate_metrics storeC1) := by
  have h := C5_idempotent_and_sum_preserving
  exact ⟨h.1 storeC1 .HOURLY,
    (h.2 storeC1 [Gran.HOURLY, Gran.DAILY] [Gran.DAILY, Gran.HOURLY]
      (List.Perm.swap _ _ _)).1⟩

end ManageBackend
